import Mathlib

/-!
# Command interpreter: scheme compiler and prompt parser

A shallow embedding of `src/logic/CommandsInterpreter.cpp`.

* A parser method of the source is a function of the source text
  (`List Char`) and the cursor `pos`; it returns either a failure or its
  result together with the new cursor.
* The text scanner `BasicParser`, the dynamic value helpers and the
  `Command` container are declared in headers that are not part of the
  sources at hand. The cursor primitives are modelled from the
  specification (section 6); what the specification leaves open (character
  classes, string and number lexing, floating point arithmetic, message
  quoting) is a field of `Extern`, and every general theorem holds for every
  `Extern`.
-/

set_option autoImplicit false

namespace cmd

/-! ## Dynamic values -/

/-- Modelled from the spec: `Number (floating point)`; the typedef is not
under src/. A floating point number is carried as a bit pattern, and its
arithmetic is supplied by `Extern`. -/
structure number_t where
  bits : Nat
deriving DecidableEq, Repr

/-- Modelled from the spec: `Integer (platform-width signed integer)`; the
typedef is not under src/. The width is taken to be 64 bits. -/
def integer_bits : Nat := 64

/-- Two's complement wrap of a mathematical integer into the `integer_t`
range `[-2^63, 2^63)`. -/
def integer_wrap (i : Int) : Int :=
  (i + 2 ^ (integer_bits - 1)) % 2 ^ integer_bits - 2 ^ (integer_bits - 1)

/-- Addition of two `integer_t` values (`+` on `integer_t` in `applyRelative`). -/
def integer_add (a b : Int) : Int := integer_wrap (a + b)

/-- The values an `integer_t` can hold. -/
def integer_representable (i : Int) : Prop :=
  -(2 ^ (integer_bits - 1)) ≤ i ∧ i < 2 ^ (integer_bits - 1)

instance (i : Int) : Decidable (integer_representable i) := by
  unfold integer_representable; exact inferInstance

/-- Modelled from the spec: `dynamic::Value`, the tagged union of section 3
(`None`, `Bool`, `Integer`, `Number`, `String`, `List`, `Map`); the header is
not under src/. Lists and maps are shared containers, carried as handles: this
code never looks inside one. -/
inductive Value where
  | none
  | bool (b : Bool)
  | integer (i : Int)
  | number (x : number_t)
  | string (s : String)
  | list (handle : Nat)
  | map (handle : Nat)
deriving DecidableEq, Repr

/-- The three kinds of exception that can leave the parser: the parser's own
`parsing_error` (thrown by `error(...)`, with the cursor position),
`std::runtime_error` and `std::bad_variant_access` (thrown by `std::get`). -/
inductive Failure where
  | parsing_error (pos : Nat) (message : String)
  | runtime_error (message : String)
  | bad_variant_access
deriving DecidableEq, Repr

instance {ε α : Type} [DecidableEq ε] [DecidableEq α] : DecidableEq (Except ε α)
  | .ok a, .ok b => if h : a = b then isTrue (by rw [h]) else isFalse (by intro h2; cases h2; exact h rfl)
  | .error a, .error b => if h : a = b then isTrue (by rw [h]) else isFalse (by intro h2; cases h2; exact h rfl)
  | .ok _, .error _ => isFalse (by intro h; cases h)
  | .error _, .ok _ => isFalse (by intro h; cases h)

/-- What the parser needs from code that is not under src/ and that the
specification does not fix: the character classes of the scanner, its string
and number lexers, the quoting of names in messages, the name of a value's
type, and the numeric conversions of `dynamic::get_number` and
`dynamic::get_integer` beyond the identity cases. -/
structure Extern where
  /-- The `is_whitespace` of the scanner: the characters `peek()` skips -/
  is_whitespace : Char → Bool
  /-- The `is_identifier_start` of the scanner -/
  is_identifier_start : Char → Bool
  /-- The `is_identifier_part` of the scanner -/
  is_identifier_part : Char → Bool
  /-- The `is_digit` of the scanner -/
  is_digit : Char → Bool
  /-- `BasicParser::parseString(quote)`, called with the cursor past the opening quote -/
  parseString : List Char → Nat → Char → Except Failure (String × Nat)
  /-- `BasicParser::parseNumber(sign)` -/
  parseNumber : List Char → Nat → Int → Except Failure (Value × Nat)
  /-- `util::quote` -/
  quote : String → String
  /-- `dynamic::type_name` -/
  type_name : Value → String
  /-- `dynamic::get_number` on a value that is not a Number: the converted
  number, or the message of the `std::runtime_error` -/
  get_number_other : Value → Except String number_t
  /-- `dynamic::get_integer` on a value that is not an Integer -/
  get_integer_other : Value → Except String Int
  /-- Floating point addition -/
  number_add : number_t → number_t → number_t

namespace dynamic

/-- The `index()` of the variant: `0` exactly for `None` (`std::monostate`,
the value of `dynamic::NONE` and of a default constructed `Value`). The code
only compares it with zero. -/
def index : Value → Nat
  | .none => 0
  | .map _ => 1
  | .list _ => 2
  | .string _ => 3
  | .number _ => 4
  | .bool _ => 5
  | .integer _ => 6

/-- Modelled from the spec: `dynamic::is_numeric`, true of an Integer and of
a Number (`Number: accepts Integer or Number`). -/
def is_numeric : Value → Bool
  | .integer _ => true
  | .number _ => true
  | _ => false

/-- Modelled from the spec: `dynamic::get_number`; a Number is returned as it
is, the other cases are those of `Extern`. -/
def get_number (E : Extern) : Value → Except String number_t
  | .number x => .ok x
  | v => E.get_number_other v

/-- Modelled from the spec: `dynamic::get_integer`; an Integer is returned as
it is, the other cases are those of `Extern`. -/
def get_integer (E : Extern) : Value → Except String Int
  | .integer i => .ok i
  | v => E.get_integer_other v

end dynamic

/-! ## Argument model -/

/-- The `ArgType` of the source, with its enumerators. -/
inductive ArgType where
  | number
  | integer
  | string
  | selector
  | enumvalue
deriving DecidableEq, Repr

/-- The `Argument` of the source, fields in the order of the aggregate
`Argument {name, type, optional, def, origin, enumname}`. -/
structure Argument where
  name : String
  type : ArgType
  optional : Bool
  «def» : Value
  origin : Value
  enumname : String
deriving DecidableEq, Repr

/-- Modelled from the spec: `Command` (section 3), whose class is declared in
a header that is not under src/: a name, the positional slots in declared
order, the keyword slots by name, and the executor as a handle. -/
structure Command where
  name : String
  args : List Argument
  kwargs : List (String × Argument)
  executor : Nat
deriving DecidableEq, Repr

/-- Modelled from the spec: `Command::getArgument(size_t index)`, the slot at
that index or `nullptr` past the end. -/
def Command.getArgument (c : Command) (index : Nat) : Option Argument :=
  c.args[index]?

/-- Modelled from the spec: `Command::getArgument(const std::string& keyword)`,
the keyword slot of that name or `nullptr`. -/
def Command.getKeywordArgument (c : Command) (keyword : String) : Option Argument :=
  c.kwargs.lookup keyword

/-- The `commands` map of `CommandsRepository`, as an association list with
unique keys. -/
structure CommandsRepository where
  commands : List (String × Command)
deriving DecidableEq, Repr

/-- `CommandsRepository::get`: `commands.find(name)`, `nullptr` when absent. -/
def CommandsRepository.get (repo : CommandsRepository) (name : String) : Option Command :=
  repo.commands.lookup name

/-- Modelled from the spec: `CommandsInterpreter` seen from the parser, its
repository and the variable namespace read by `operator[]`
(`resolve name → Dynamic Value`); the class is declared in a header that is
not under src/. -/
structure CommandsInterpreter where
  repository : CommandsRepository
  resolve : String → Value

/-- Modelled from the spec: `dynamic::Map::put`, keys unique, the value of an
existing key is overwritten, insertion order is kept. -/
def Map.put (m : List (String × Value)) (key : String) (value : Value) :
    List (String × Value) :=
  match m with
  | [] => [(key, value)]
  | (k, v) :: rest => if k = key then (k, value) :: rest else (k, v) :: Map.put rest key value

/-- The `Prompt` of the source: `Prompt {command, args, kwargs}`. -/
structure Prompt where
  command : Command
  args : List Value
  kwargs : List (String × Value)
deriving DecidableEq, Repr

/-! ## The text scanner -/

/-- Modelled from the spec: `BasicParser::error`, the position-tagged parse
error; the position is the cursor. -/
def error (pos : Nat) (message : String) : Failure :=
  Failure.parsing_error pos message

/-- Modelled from the spec: `BasicParser::hasNext`, the test for remaining input. -/
def hasNext (source : List Char) (pos : Nat) : Bool :=
  decide (pos < source.length)

/-- Modelled from the spec: `BasicParser::skipWhitespace`, the cursor moved
past the insignificant whitespace at it. -/
def skipWhitespace (E : Extern) (source : List Char) (pos : Nat) : Nat :=
  pos + ((source.drop pos).takeWhile E.is_whitespace).length

/-- Modelled from the spec: `BasicParser::peekNoJump`, the current character
without skipping whitespace; there is none at the end of input, which is a
parse error. -/
def peekNoJump (source : List Char) (pos : Nat) : Except Failure Char :=
  match source[pos]? with
  | some c => .ok c
  | none => .error (error pos "unexpected end")

/-- Modelled from the spec: `BasicParser::peek`, the current character after
skipping insignificant whitespace; the cursor stays past the whitespace. -/
def peek (E : Extern) (source : List Char) (pos : Nat) : Except Failure (Char × Nat) :=
  match source[skipWhitespace E source pos]? with
  | some c => .ok (c, skipWhitespace E source pos)
  | none => .error (error (skipWhitespace E source pos) "unexpected end")

/-- Modelled from the spec: `BasicParser::nextChar`, advance one character. -/
def nextChar (source : List Char) (pos : Nat) : Except Failure (Char × Nat) :=
  match source[pos]? with
  | some c => .ok (c, pos + 1)
  | none => .error (error pos "unexpected end")

/-- Modelled from the spec: `BasicParser::expect`, assert and consume an
expected character (after whitespace). -/
def expect (E : Extern) (source : List Char) (pos : Nat) (expected : Char) :
    Except Failure Nat :=
  match peek E source pos with
  | .error e => .error e
  | .ok (c, pos) =>
    if c ≠ expected then .error (error pos ("'" ++ String.mk [expected] ++ "' expected"))
    else .ok (pos + 1)

/-- Modelled from the spec: `BasicParser::readUntil`, the characters up to
the delimiter (or the end of input); the cursor stops at the delimiter. -/
def readUntil (source : List Char) (pos : Nat) (c : Char) : String × Nat :=
  (String.mk ((source.drop pos).takeWhile (fun x => x != c)),
    pos + ((source.drop pos).takeWhile (fun x => x != c)).length)

/-- Modelled from the spec: `BasicParser::goBack`, rewind the cursor by
`count` characters; rewinding past the start is a `std::runtime_error`. -/
def goBack (pos : Nat) (count : Nat) : Except Failure Nat :=
  if pos < count then .error (Failure.runtime_error "pos < jump") else .ok (pos - count)

/-! ## `CommandParser` -/

/-- The `is_cmd_identifier_part` of the source. -/
def is_cmd_identifier_part (E : Extern) (c : Char) (allowColon : Bool) : Bool :=
  E.is_identifier_part c || c == '.' || c == '$' || c == '@' || (allowColon && c == ':')

/-- The `is_cmd_identifier_start` of the source. -/
def is_cmd_identifier_start (E : Extern) (c : Char) : Bool :=
  E.is_identifier_start c || c == '.' || c == '$' || c == '@'

/-- `CommandParser::parseIdentifier`. The `while` loop advances the cursor
over the longest run of identifier characters at `start`. -/
def parseIdentifier (E : Extern) (source : List Char) (pos : Nat) (allowColon : Bool) :
    Except Failure (String × Nat) :=
  match peek E source pos with
  | .error e => .error e
  | .ok (c, pos) =>
    if !E.is_identifier_start c && c != '$' then
      if c == '"' then E.parseString source (pos + 1) c
      else .error (error pos "identifier expected")
    else
      .ok (String.mk ((source.drop pos).takeWhile (fun x => is_cmd_identifier_part E x allowColon)),
        pos + ((source.drop pos).takeWhile (fun x => is_cmd_identifier_part E x allowColon)).length)

/-- `CommandParser::parseValue`. -/
def parseValue (E : Extern) (source : List Char) (pos : Nat) : Except Failure (Value × Nat) :=
  match peek E source pos with
  | .error e => .error e
  | .ok (c, pos) =>
    if is_cmd_identifier_start E c then
      match parseIdentifier E source pos true with
      | .error e => .error e
      | .ok (str, pos) =>
        if str = "true" then .ok (Value.bool true, pos)
        else if str = "false" then .ok (Value.bool false, pos)
        else if str = "none" ∨ str = "nil" ∨ str = "null" then .ok (Value.none, pos)
        else .ok (Value.string str, pos)
    else if c == '"' || c == '\'' then
      match nextChar source pos with
      | .error e => .error e
      | .ok (_, pos) =>
        match E.parseString source pos c with
        | .error e => .error e
        | .ok (s, pos) => .ok (Value.string s, pos)
    else if c == '+' || c == '-' || E.is_digit c then
      E.parseNumber source pos (if c == '-' then -1 else 1)
    else .error (error pos ("invalid character '" ++ String.mk [c] ++ "'"))

/-- `CommandParser::parseEnum`. In the inline form the cursor is past `[`;
`enumvalue.find(' ')` is the number of characters before the first space. -/
def parseEnum (E : Extern) (source : List Char) (pos : Nat) : Except Failure (String × Nat) :=
  match peek E source pos with
  | .error e => .error e
  | .ok (c, pos) =>
    if c == '[' then
      match nextChar source pos with
      | .error e => .error e
      | .ok (_, pos) =>
        match peek E source pos with
        | .error e => .error e
        | .ok (c, pos) =>
          if c == ']' then .error (error pos "empty enumeration is not allowed")
          else
            let enumvalue := "|" ++ (readUntil source pos ']').1 ++ "|"
            let pos := (readUntil source pos ']').2
            if ' ' ∈ enumvalue.data then
              let offset := (enumvalue.data.takeWhile (fun x => x != ' ')).length
              match goBack pos (enumvalue.length - offset) with
              | .error e => .error e
              | .ok pos => .error (error pos "use '|' as separator, not a space")
            else
              match nextChar source pos with
              | .error e => .error e
              | .ok (_, pos) => .ok (enumvalue, pos)
    else
      match expect E source pos '$' with
      | .error e => .error e
      | .ok pos =>
        match goBack pos 1 with
        | .error e => .error e
        | .ok pos => parseIdentifier E source pos false

/-- `CommandParser::argumentError`. -/
def argumentError (E : Extern) (pos : Nat) (argname message : String) : Failure :=
  error pos ("argument " ++ E.quote argname ++ ": " ++ message)

/-- `CommandParser::typeError`. -/
def typeError (E : Extern) (pos : Nat) (argname expected : String) (value : Value) : Failure :=
  argumentError E pos argname (expected ++ " expected, got " ++ E.type_name value)

/-- `std::string::find(needle) != npos`: the needle occurs in the text as a
contiguous run of characters. -/
def contains (text needle : String) : Bool :=
  decide (needle.data <:+: text.data)

/-- `CommandParser::typeCheck<T>`; `holds` is `std::holds_alternative<T>(value)`. -/
def typeCheckT (E : Extern) (pos : Nat) (arg : Argument) (holds : Bool) (value : Value)
    (tname : String) : Except Failure Bool :=
  if !holds then
    if arg.optional then .ok false
    else .error (typeError E pos arg.name tname value)
  else .ok true

/-- `std::holds_alternative<integer_t>`. -/
def holds_integer : Value → Bool
  | .integer _ => true
  | _ => false

/-- `std::holds_alternative<std::string>`. -/
def holds_string : Value → Bool
  | .string _ => true
  | _ => false

/-- `CommandParser::typeCheck`. -/
def typeCheck (E : Extern) (pos : Nat) (arg : Argument) (value : Value) : Except Failure Bool :=
  match arg.type with
  | .enumvalue =>
    match value with
    | .string string =>
      if !contains arg.enumname ("|" ++ string ++ "|") then
        .error (error pos ("argument " ++ E.quote arg.name ++ ": invalid enumeration value"))
      else .ok true
    | _ =>
      if arg.optional then .ok false
      else .error (typeError E pos arg.name "enumeration value" value)
  | .number =>
    if !dynamic.is_numeric value then
      if arg.optional then .ok false
      else .error (typeError E pos arg.name "number" value)
    else .ok true
  | .integer => typeCheckT E pos arg (holds_integer value) value "integer"
  | .string => typeCheckT E pos arg (holds_string value) value "string"
  | .selector => typeCheckT E pos arg (holds_integer value) value "id"

/-- `CommandParser::fetchOrigin`; `(*interpreter)[*string]` is one lookup in
the variable namespace. -/
def fetchOrigin (interpreter : CommandsInterpreter) (arg : Argument) : Value :=
  if dynamic.is_numeric arg.origin then arg.origin
  else
    match arg.origin with
    | .string string => interpreter.resolve string
    | _ => Value.none

/-- `CommandParser::applyRelative`. A `std::runtime_error` of
`dynamic::get_number` or `dynamic::get_integer` is caught and thrown again as
an argument error; the operand of the origin is read first. -/
def applyRelative (E : Extern) (pos : Nat) (arg : Argument) (value origin : Value) :
    Except Failure Value :=
  if dynamic.index origin = 0 then .ok value
  else if arg.type = ArgType.number then
    match dynamic.get_number E origin with
    | .error what => .error (argumentError E pos arg.name what)
    | .ok a =>
      match dynamic.get_number E value with
      | .error what => .error (argumentError E pos arg.name what)
      | .ok b => .ok (Value.number (E.number_add a b))
  else
    match dynamic.get_integer E origin with
    | .error what => .error (argumentError E pos arg.name what)
    | .ok a =>
      match dynamic.get_integer E value with
      | .error what => .error (argumentError E pos arg.name what)
      | .ok b => .ok (Value.integer (integer_add a b))

/-- `CommandParser::parseRelativeValue`, called with the cursor at `~`. -/
def parseRelativeValue (E : Extern) (interpreter : CommandsInterpreter) (source : List Char)
    (pos : Nat) (arg : Argument) : Except Failure (Value × Nat) :=
  if arg.type ≠ ArgType.number ∧ arg.type ≠ ArgType.integer then
    .error (error pos "'~' operator is only allowed for numeric arguments")
  else
    match nextChar source pos with
    | .error e => .error e
    | .ok (_, pos) =>
      let origin := fetchOrigin interpreter arg
      match peekNoJump source pos with
      | .error e => .error e
      | .ok c =>
        if c == ' ' || !hasNext source pos then .ok (origin, pos)
        else
          match parseValue E source pos with
          | .error e => .error e
          | .ok (value, pos) =>
            if dynamic.index origin = 0 then .ok (value, pos)
            else
              match applyRelative E pos arg value origin with
              | .error e => .error e
              | .ok v => .ok (v, pos)

/-- `CommandParser::performKeywordArg`, called with the cursor at `=`. The
result of `typeCheck` is not looked at; its exception propagates. -/
def performKeywordArg (E : Extern) (interpreter : CommandsInterpreter) (command : Command)
    (source : List Char) (pos : Nat) (key : String) : Except Failure (Value × Nat) :=
  match command.getKeywordArgument key with
  | some arg =>
    match nextChar source pos with
    | .error e => .error e
    | .ok (_, pos) =>
      match peek E source pos with
      | .error e => .error e
      | .ok (c, pos) =>
        match (if c == '~' then parseRelativeValue E interpreter source pos arg
               else parseValue E source pos) with
        | .error e => .error e
        | .ok (value, pos) =>
          match typeCheck E pos arg value with
          | .error e => .error e
          | .ok _ => .ok (value, pos)
  | none => .error (error pos ("unknown keyword " ++ E.quote key))

/-- The variables of the `while` loop of `parsePrompt`: the cursor,
`arg_index`, and the two containers `args` and `kwargs` of the prompt. -/
structure LoopState where
  pos : Nat
  arg_index : Nat
  args : List Value
  kwargs : List (String × Value)
deriving DecidableEq, Repr

/-- What the first half of the loop body of `parsePrompt` leaves behind:
`relative`, `value`, the cursor and `kwargs`. -/
structure Token where
  relative : Bool
  value : Value
  pos : Nat
  kwargs : List (String × Value)
deriving DecidableEq, Repr

/-- The loop body of `parsePrompt` from `bool relative = false;` to the end
of the `if (hasNext() && peekNoJump() != ' ')` block: the `~` marker, the
value literal and the keyword argument. `std::get<std::string>(value)` throws
`std::bad_variant_access` when the value is not a String. -/
def readToken (E : Extern) (interpreter : CommandsInterpreter) (command : Command)
    (source : List Char) (pos : Nat) (kwargs : List (String × Value)) : Except Failure Token :=
  match peek E source pos with
  | .error e => .error e
  | .ok (c, pos) =>
    let relative := c == '~'
    let value := if relative then Value.integer 0 else Value.none
    match (if relative then nextChar source pos else .ok (c, pos)) with
    | .error e => .error e
    | .ok (_, pos) =>
      if hasNext source pos && source[pos]? != some ' ' then
        match parseValue E source pos with
        | .error e => .error e
        | .ok (value, pos) =>
          if !relative && hasNext source pos then
            match peek E source pos with
            | .error e => .error e
            | .ok (c, pos) =>
              if c == '=' then
                match value with
                | .string key =>
                  match performKeywordArg E interpreter command source pos key with
                  | .error e => .error e
                  | .ok (v, pos) => .ok ⟨relative, value, pos, Map.put kwargs key v⟩
                | _ => .error Failure.bad_variant_access
              else .ok ⟨relative, value, pos, kwargs⟩
          else .ok ⟨relative, value, pos, kwargs⟩
      else .ok ⟨relative, value, pos, kwargs⟩

/-- The `do ... while (!typeCheck(arg, value))` loop of `parsePrompt`, over
the slots from `arg_index` on: `slots` is what `getArgument(arg_index++)`
still has to return, and is empty when it returns `nullptr`. The result is
the slot the loop stops at and the value of `arg_index` after it. -/
def bindPositional (E : Extern) (pos : Nat) (relative : Bool) (value : Value) :
    List Argument → Nat → Except Failure (Argument × Nat)
  | [], _ => .error (error pos "extra positional argument")
  | arg :: slots, arg_index =>
    if dynamic.index arg.origin ≠ 0 ∧ relative = true then .ok (arg, arg_index + 1)
    else
      match typeCheck E pos arg value with
      | .error e => .error e
      | .ok true => .ok (arg, arg_index + 1)
      | .ok false => bindPositional E pos relative value slots (arg_index + 1)

/-- One iteration of the `while (hasNext())` loop of `parsePrompt`. -/
def promptStep (E : Extern) (interpreter : CommandsInterpreter) (command : Command)
    (source : List Char) (st : LoopState) : Except Failure LoopState :=
  match readToken E interpreter command source st.pos st.kwargs with
  | .error e => .error e
  | .ok tok =>
    match bindPositional E tok.pos tok.relative tok.value
        (command.args.drop st.arg_index) st.arg_index with
    | .error e => .error e
    | .ok (arg, arg_index) =>
      match (if tok.relative then
          applyRelative E tok.pos arg tok.value (fetchOrigin interpreter arg)
        else .ok tok.value) with
      | .error e => .error e
      | .ok value => .ok ⟨tok.pos, arg_index, st.args ++ [value], tok.kwargs⟩

/-- The `while (hasNext())` loop of `parsePrompt`, run for at most `fuel`
iterations; `none` when the fuel does not suffice. -/
def promptLoop (E : Extern) (interpreter : CommandsInterpreter) (command : Command)
    (source : List Char) : Nat → LoopState → Option (Except Failure LoopState)
  | 0, _ => none
  | fuel + 1, st =>
    if hasNext source st.pos then
      match promptStep E interpreter command source st with
      | .error e => some (.error e)
      | .ok st => promptLoop E interpreter command source fuel st
    else some (.ok st)

/-- The last loop of `parsePrompt`,
`while (auto arg = command->getArgument(arg_index++))`, over the slots from
`arg_index` on. -/
def checkMissing (E : Extern) (pos : Nat) : List Argument → Except Failure Unit
  | [] => .ok ()
  | arg :: slots =>
    if !arg.optional then .error (error pos ("missing argument " ++ E.quote arg.name))
    else checkMissing E pos slots

/-- `CommandParser::parsePrompt`, with `fuel` iterations for its main loop. -/
def parsePromptFuel (E : Extern) (interpreter : CommandsInterpreter) (source : List Char)
    (fuel : Nat) : Option (Except Failure Prompt) :=
  match parseIdentifier E source 0 true with
  | .error e => some (.error e)
  | .ok (name, pos) =>
    match interpreter.repository.get name with
    | none => some (.error (error pos ("unknown command " ++ E.quote name)))
    | some command =>
      match promptLoop E interpreter command source fuel ⟨pos, 0, [], []⟩ with
      | none => none
      | some (.error e) => some (.error e)
      | some (.ok st) =>
        match checkMissing E st.pos (command.args.drop st.arg_index) with
        | .error e => some (.error e)
        | .ok _ => some (.ok ⟨command, st.args, st.kwargs⟩)

/-- `CommandParser::parsePrompt`. An iteration of the main loop that does not
fail moves the cursor forward, so one iteration for each character of the
source and one more suffice. -/
def parsePrompt (E : Extern) (interpreter : CommandsInterpreter) (source : List Char) :
    Option (Except Failure Prompt) :=
  parsePromptFuel E interpreter source (source.length + 1)

/-- `CommandsInterpreter::parse`. -/
def CommandsInterpreter.parse (E : Extern) (interpreter : CommandsInterpreter) (text : String) :
    Option (Except Failure Prompt) :=
  parsePrompt E interpreter text.data

/-! ## The scheme compiler -/

/-- The `types` table of `CommandParser`; `none` is `types.end()`. -/
def types (name : String) : Option ArgType :=
  if name = "num" then some ArgType.number
  else if name = "int" then some ArgType.integer
  else if name = "str" then some ArgType.string
  else if name = "@" then some ArgType.selector
  else if name = "enum" then some ArgType.enumvalue
  else none

/-- `CommandParser::parseType`. -/
def parseType (E : Extern) (source : List Char) (pos : Nat) : Except Failure (ArgType × Nat) :=
  match peek E source pos with
  | .error e => .error e
  | .ok (c, pos) =>
    if c == '[' then .ok (ArgType.enumvalue, pos)
    else
      match parseIdentifier E source pos false with
      | .error e => .error e
      | .ok (name, pos) =>
        match types name with
        | some type => .ok (type, pos)
        | none => .error (error pos ("unknown type " ++ E.quote name))

/-- The variables of the modifier loop of `parseArgument`: `optional`, `def`,
`origin` and the cursor. -/
structure Modifiers where
  optional : Bool
  «def» : Value
  origin : Value
  pos : Nat
deriving DecidableEq, Repr

/-- The `while (hasNext() && loop)` loop of `parseArgument`, run for at most
`fuel` iterations; `none` when the fuel does not suffice. The `default` case
of the `switch` ends the loop, with the cursor where `peek()` left it. -/
def parseModifiers (E : Extern) (source : List Char) : Nat → Modifiers →
    Option (Except Failure Modifiers)
  | 0, _ => none
  | fuel + 1, m =>
    if hasNext source m.pos then
      match peek E source m.pos with
      | .error e => some (.error e)
      | .ok (c, pos) =>
        if c == '=' then
          match nextChar source pos with
          | .error e => some (.error e)
          | .ok (_, pos) =>
            match parseValue E source pos with
            | .error e => some (.error e)
            | .ok (v, pos) => parseModifiers E source fuel ⟨true, v, m.origin, pos⟩
        else if c == '~' then
          match nextChar source pos with
          | .error e => some (.error e)
          | .ok (_, pos) =>
            match parseValue E source pos with
            | .error e => some (.error e)
            | .ok (v, pos) => parseModifiers E source fuel ⟨m.optional, m.def, v, pos⟩
        else some (.ok ⟨m.optional, m.def, m.origin, pos⟩)
    else some (.ok m)

/-- `CommandParser::parseArgument`. A modifier takes at least its marker from
the source, so one iteration for each character and one more suffice for the
modifier loop. -/
def parseArgument (E : Extern) (source : List Char) (pos : Nat) :
    Option (Except Failure (Argument × Nat)) :=
  match parseIdentifier E source pos false with
  | .error e => some (.error e)
  | .ok (name, pos) =>
    match expect E source pos ':' with
    | .error e => some (.error e)
    | .ok pos =>
      match parseType E source pos with
      | .error e => some (.error e)
      | .ok (type, pos) =>
        match (if type = ArgType.enumvalue then parseEnum E source pos else .ok ("", pos)) with
        | .error e => some (.error e)
        | .ok (enumname, pos) =>
          match parseModifiers E source (source.length + 1) ⟨false, Value.none, Value.none, pos⟩ with
          | none => none
          | some (.error e) => some (.error e)
          | some (.ok m) => some (.ok (⟨name, type, m.optional, m.def, m.origin, enumname⟩, m.pos))

/-- The assignment `map[key] = value` of `std::unordered_map`: the value of an
existing key is replaced, a new key is added. -/
def insert_or_assign {β : Type} (m : List (String × β)) (key : String) (value : β) :
    List (String × β) :=
  match m with
  | [] => [(key, value)]
  | (k, v) :: rest =>
    if k = key then (key, value) :: rest else (k, v) :: insert_or_assign rest key value

/-- The `while (peek() != '}')` loop of `parseScheme`, run for at most `fuel`
iterations; the cursor is left at `}`. -/
def parseKeywordBlock (E : Extern) (source : List Char) : Nat → Nat →
    List (String × Argument) → Option (Except Failure (List (String × Argument) × Nat))
  | 0, _, _ => none
  | fuel + 1, pos, kwargs =>
    match peek E source pos with
    | .error e => some (.error e)
    | .ok (c, pos) =>
      if c != '}' then
        match parseArgument E source pos with
        | none => none
        | some (.error e) => some (.error e)
        | some (.ok (arg, pos)) =>
          parseKeywordBlock E source fuel pos (insert_or_assign kwargs arg.name arg)
      else some (.ok (kwargs, pos))

/-- The `while (hasNext())` loop of `parseScheme`, run for at most `fuel`
iterations. -/
def parseSchemeLoop (E : Extern) (source : List Char) : Nat → Nat → List Argument →
    List (String × Argument) → Option (Except Failure (List Argument × List (String × Argument)))
  | 0, _, _, _ => none
  | fuel + 1, pos, args, kwargs =>
    if hasNext source pos then
      match peek E source pos with
      | .error e => some (.error e)
      | .ok (c, pos) =>
        if c == '{' then
          match nextChar source pos with
          | .error e => some (.error e)
          | .ok (_, pos) =>
            match parseKeywordBlock E source (source.length + 1) pos kwargs with
            | none => none
            | some (.error e) => some (.error e)
            | some (.ok (kwargs, pos)) =>
              match nextChar source pos with
              | .error e => some (.error e)
              | .ok (_, pos) => parseSchemeLoop E source fuel pos args kwargs
        else
          match parseArgument E source pos with
          | none => none
          | some (.error e) => some (.error e)
          | some (.ok (arg, pos)) => parseSchemeLoop E source fuel pos (args ++ [arg]) kwargs
    else some (.ok (args, kwargs))

/-- `CommandParser::parseScheme`. -/
def parseScheme (E : Extern) (source : List Char) (executor : Nat) :
    Option (Except Failure Command) :=
  match parseIdentifier E source 0 true with
  | .error e => some (.error e)
  | .ok (name, pos) =>
    match parseSchemeLoop E source (source.length + 1) pos [] [] with
    | none => none
    | some (.error e) => some (.error e)
    | some (.ok (args, kwargs)) => some (.ok ⟨name, args, kwargs, executor⟩)

/-- `Command::create`. -/
def Command.create (E : Extern) (scheme : String) (executor : Nat) :
    Option (Except Failure Command) :=
  parseScheme E scheme.data executor

/-- `CommandsRepository::add`, as a step on the repository: the outcome and
the repository after the call. An exception of `Command::create` leaves the
call before `commands` is assigned to. -/
def CommandsRepository.add (E : Extern) (repo : CommandsRepository) (scheme : String)
    (executor : Nat) : Option (Except Failure Unit × CommandsRepository) :=
  match Command.create E scheme executor with
  | none => none
  | some (.error e) => some (.error e, repo)
  | some (.ok command) => some (.ok (), ⟨insert_or_assign repo.commands command.name command⟩)

/-! ## A concrete scanner

The examples are evaluated with a plain scanner: blanks are space, tab and
line ends, identifiers are made of letters, digits and `_`, a quoted string
has no escapes, a number is a decimal integer. -/

/-- The letters and `_`. -/
def ascii_identifier_start (c : Char) : Bool :=
  c.isAlpha || c == '_'

/-- A quoted string without escapes, cursor past the opening quote. -/
def ascii_parseString (source : List Char) (pos : Nat) (q : Char) :
    Except Failure (String × Nat) :=
  if hasNext source ((readUntil source pos q).2) then
    .ok ((readUntil source pos q).1, (readUntil source pos q).2 + 1)
  else .error (error (readUntil source pos q).2 "unexpected end")

/-- A decimal integer with an optional sign; the sign was read by the caller. -/
def ascii_parseNumber (source : List Char) (pos : Nat) (sign : Int) :
    Except Failure (Value × Nat) :=
  let start := if source[pos]? = some '+' ∨ source[pos]? = some '-' then pos + 1 else pos
  let digits := (source.drop start).takeWhile Char.isDigit
  if digits = [] then .error (error start "invalid number")
  else .ok (Value.integer (sign * Int.ofNat (digits.foldl (fun n c => 10 * n + (c.toNat - 48)) 0)),
    start + digits.length)

/-- The names of the kinds of value. -/
def ascii_type_name : Value → String
  | .none => "none"
  | .bool _ => "bool"
  | .integer _ => "integer"
  | .number _ => "number"
  | .string _ => "string"
  | .list _ => "list"
  | .map _ => "map"

/-- The scanner of the examples. -/
def asciiExtern : Extern where
  is_whitespace := fun c => c == ' ' || c == '\t' || c == '\n' || c == '\r'
  is_identifier_start := ascii_identifier_start
  is_identifier_part := fun c => ascii_identifier_start c || c.isDigit
  is_digit := Char.isDigit
  parseString := ascii_parseString
  parseNumber := ascii_parseNumber
  quote := fun s => "\"" ++ s ++ "\""
  type_name := ascii_type_name
  get_number_other := fun v => .error ("cannot cast " ++ ascii_type_name v ++ " to number")
  get_integer_other := fun v => .error ("cannot cast " ++ ascii_type_name v ++ " to integer")
  number_add := fun a b => ⟨a.bits + b.bits⟩

/-! ## Specification-side predicates -/

/-- The kind of a value is the one a declared type asks for: Integer or
Number for `number`, Integer for `integer` and `selector`, String for
`string` and `enumvalue`. -/
def kindMatches : ArgType → Value → Bool
  | .number, .integer _ => true
  | .number, .number _ => true
  | .integer, .integer _ => true
  | .selector, .integer _ => true
  | .string, .string _ => true
  | .enumvalue, .string _ => true
  | _, _ => false

/-- The value is a String that is a member of the argument's enum spec:
`"|" + value + "|"` occurs in the spec (section 4.3). -/
def enumMember (arg : Argument) : Value → Bool
  | .string s => contains arg.enumname ("|" ++ s ++ "|")
  | _ => false

/-- The value is accepted by the argument's declared type: its kind matches
and, for `enumvalue`, it is a member of the enum spec. -/
def accepted (arg : Argument) (value : Value) : Bool :=
  kindMatches arg.type value && (arg.type != ArgType.enumvalue || enumMember arg value)

/-- At the cursor `pos`, the loop body of `parsePrompt` reads one plain
literal of value `v` and leaves the cursor at `pos'`: after the whitespace at
`pos` comes a character that is neither `~` nor a space, `parseValue` reads
`v` there over at least one character, and what follows the literal is the
end of the source, or whitespace and then a character other than `=`. -/
def ReadsLiteral (E : Extern) (source : List Char) (pos : Nat) (v : Value) (pos' : Nat) : Prop :=
  ∃ (c : Char) (q q' : Nat),
    peek E source pos = .ok (c, q) ∧ c ≠ '~' ∧ c ≠ ' ' ∧
    parseValue E source q = .ok (v, q') ∧ q < q' ∧
    ((hasNext source q' = false ∧ pos' = q') ∨
      (hasNext source q' = true ∧ ∃ c', peek E source q' = .ok (c', pos') ∧ c' ≠ '='))

/-- From the cursor `pos` the source holds, one after the other, the plain
literals of the values `vs`, and reading them leaves the cursor at `pos'`. -/
inductive LiteralsTo (E : Extern) (source : List Char) : Nat → List Value → Nat → Prop where
  | nil (pos : Nat) : LiteralsTo E source pos [] pos
  | cons {pos mid pos' : Nat} {v : Value} {vs : List Value} :
      hasNext source pos = true → ReadsLiteral E source pos v mid →
      LiteralsTo E source mid vs pos' → LiteralsTo E source pos (v :: vs) pos'

/-! ## Example commands -/

/-- The command `heal` of the specification: `target` (Selector, mandatory)
and `amount` (Integer, optional, default 10, origin `health`). -/
def healCommand : Command :=
  ⟨"heal",
    [⟨"target", ArgType.selector, false, Value.none, Value.none, ""⟩,
     ⟨"amount", ArgType.integer, true, Value.integer 10, Value.string "health", ""⟩],
    [], 0⟩

/-- A command without positional slots and with one keyword slot `count`
(Integer, mandatory). -/
def giveCommand : Command :=
  ⟨"give", [], [("count", ⟨"count", ArgType.integer, false, Value.none, Value.none, ""⟩)], 1⟩

/-- A command with one positional slot `text` (String, mandatory, no origin)
and the keyword slots `count` (Integer) and `tag` (String). -/
def sayCommand : Command :=
  ⟨"say", [⟨"text", ArgType.string, false, Value.none, Value.none, ""⟩],
    [("count", ⟨"count", ArgType.integer, false, Value.none, Value.none, ""⟩),
     ("tag", ⟨"tag", ArgType.string, false, Value.none, Value.none, ""⟩)], 2⟩

/-- A command with one positional slot `id` (Selector, mandatory, origin 5). -/
def pickCommand : Command :=
  ⟨"pick", [⟨"id", ArgType.selector, false, Value.none, Value.integer 5, ""⟩], [], 3⟩

/-- A command with two mandatory positional slots, `x` (Integer) and `label` (String). -/
def markCommand : Command :=
  ⟨"mark",
    [⟨"x", ArgType.integer, false, Value.none, Value.none, ""⟩,
     ⟨"label", ArgType.string, false, Value.none, Value.none, ""⟩], [], 4⟩

/-- An interpreter with the example commands registered and the variable
`health = 50`; every other variable is None. -/
def exampleInterpreter : CommandsInterpreter :=
  ⟨⟨[("heal", healCommand), ("give", giveCommand), ("say", sayCommand),
      ("pick", pickCommand), ("mark", markCommand)]⟩,
    fun name => if name = "health" then Value.integer 50 else Value.none⟩

/-- The same commands with the variable `health = 10`. -/
def exampleInterpreter10 : CommandsInterpreter :=
  ⟨exampleInterpreter.repository,
    fun name => if name = "health" then Value.integer 10 else Value.none⟩

/-- The strings the enum spec `|a|b|c|` holds between two of its `|`. -/
def abcRuns : List String := ["a", "b", "c", "a|b", "b|c", "a|b|c"]

/-- From the cursor `pos` the source holds, one after the other, the
modifiers `ms` of a scheme argument, each a pair of its marker (`true` for
`=`, `false` for `~`) and the value of the literal after it; reading them
leaves the cursor at `pos'`. -/
inductive ModifiersTo (E : Extern) (source : List Char) :
    Nat → List (Bool × Value) → Nat → Prop where
  | nil (pos : Nat) : ModifiersTo E source pos [] pos
  | cons {pos q mid pos' : Nat} {c : Char} {v : Value} {ms : List (Bool × Value)} :
      hasNext source pos = true → peek E source pos = .ok (c, q) → (c = '=' ∨ c = '~') →
      parseValue E source (q + 1) = .ok (v, mid) → pos < mid →
      ModifiersTo E source mid ms pos' → ModifiersTo E source pos ((c == '=', v) :: ms) pos'

/-- The value of the last modifier of `ms` with the marker `marker`, or `d`
when there is none. -/
def lastValueOr (marker : Bool) (d : Value) (ms : List (Bool × Value)) : Value :=
  match (ms.filter (fun m => m.1 == marker)).getLast? with
  | some m => m.2
  | none => d

/-- The value of the last modifier of `ms` with the marker `marker`, `None`
when there is none. -/
def lastValue (marker : Bool) (ms : List (Bool × Value)) : Value :=
  lastValueOr marker Value.none ms

/-- A command with the slots `note` (String, optional, no origin) and
`height` (Integer, mandatory, origin `health`). -/
def liftCommand : Command :=
  ⟨"lift",
    [⟨"note", ArgType.string, true, Value.string "", Value.none, ""⟩,
     ⟨"height", ArgType.integer, false, Value.none, Value.string "health", ""⟩], [], 5⟩

/-- A command with the slots `steps` (Integer, optional, no origin) and
`height` (Integer, optional, origin `health`). -/
def warpCommand : Command :=
  ⟨"warp",
    [⟨"steps", ArgType.integer, true, Value.integer 1, Value.none, ""⟩,
     ⟨"height", ArgType.integer, true, Value.integer 0, Value.string "health", ""⟩], [], 6⟩

/-- A command with one positional slot `x` and one keyword slot `dy`, both
Integer, mandatory, with the origin `pos`. -/
def moveCommand : Command :=
  ⟨"move", [⟨"x", ArgType.integer, false, Value.none, Value.string "pos", ""⟩],
    [("dy", ⟨"dy", ArgType.integer, false, Value.none, Value.string "pos", ""⟩)], 7⟩

/-- An interpreter with the commands `lift`, `warp` and `move` registered
and the variable `health = 50`; every other variable, `pos` among them, is
None. -/
def relativeInterpreter : CommandsInterpreter :=
  ⟨⟨[("lift", liftCommand), ("warp", warpCommand), ("move", moveCommand)]⟩,
    fun name => if name = "health" then Value.integer 50 else Value.none⟩

/-- The name `typeCheck` gives, in its type error, to what a declared type expects. -/
def expectedName : ArgType → String
  | .enumvalue => "enumeration value"
  | .number => "number"
  | .integer => "integer"
  | .string => "string"
  | .selector => "id"

/-- A command with one positional slot `text` (String, mandatory) and one
keyword slot `times` (Integer, optional, default 1). -/
def echoCommand : Command :=
  ⟨"echo", [⟨"text", ArgType.string, false, Value.none, Value.none, ""⟩],
    [("times", ⟨"times", ArgType.integer, true, Value.integer 1, Value.none, ""⟩)], 8⟩

/-- An interpreter with the command `echo` registered and no variable set. -/
def keywordInterpreter : CommandsInterpreter :=
  ⟨⟨[("echo", echoCommand)]⟩, fun _ => Value.none⟩

/-- The runs of `|a|b|c|` that begin and end with `|`. -/
theorem infix_abc (cs : List Char) :
    ('|' :: (cs ++ ['|'])) <:+: ['|', 'a', '|', 'b', '|', 'c', '|'] ↔
      cs = ['a'] ∨ cs = ['b'] ∨ cs = ['c'] ∨ cs = ['a', '|', 'b'] ∨ cs = ['b', '|', 'c'] ∨
        cs = ['a', '|', 'b', '|', 'c'] := by
  rcases cs with _ | ⟨c1, _ | ⟨c2, _ | ⟨c3, _ | ⟨c4, _ | ⟨c5, _ | ⟨c6, cs⟩⟩⟩⟩⟩⟩ <;>
    simp [List.infix_cons_iff, List.cons_prefix_cons]

/-- The substring test of `typeCheck` on the enum spec `|a|b|c|`. -/
theorem contains_abc (s : String) :
    contains "|a|b|c|" ("|" ++ s ++ "|") = decide (s ∈ abcRuns) := by
  have h : ("|" ++ s ++ "|").data = '|' :: (s.data ++ ['|']) := by simp
  have hs : ∀ t : String, s = t ↔ s.data = t.data := fun t =>
    ⟨fun e => by rw [e], fun e => String.ext e⟩
  unfold contains
  rw [h]
  have key := infix_abc s.data
  simp only [abcRuns, List.mem_cons, List.mem_singleton, List.not_mem_nil, or_false, hs]
  exact decide_eq_decide.mpr key

/-- What a successful `peek` says about the cursor it returns. -/
theorem peek_ok {E : Extern} {source : List Char} {pos q : Nat} {c : Char}
    (h : peek E source pos = .ok (c, q)) :
    pos ≤ q ∧ source[q]? = some c ∧ hasNext source q = true := by
  unfold peek at h
  split at h
  · rename_i c' hc
    injection h with h
    injection h with h1 h2
    subst h1 h2
    refine ⟨by unfold skipWhitespace; omega, hc, ?_⟩
    have := (List.getElem?_eq_some_iff.mp hc).1
    simpa [hasNext] using this
  · cases h

/-- `typeCheck` returns true on an accepted value. -/
theorem typeCheck_accepted (E : Extern) (pos : Nat) (arg : Argument) (value : Value)
    (h : accepted arg value = true) : typeCheck E pos arg value = .ok true := by
  obtain ⟨name, type, optional, d, origin, enumname⟩ := arg
  cases type <;> cases value <;>
    simp_all [accepted, typeCheck, typeCheckT, kindMatches, enumMember, dynamic.is_numeric,
      holds_integer, holds_string]

/-- The first half of the loop body on a plain literal: the value is read,
nothing is marked relative, the keyword map is unchanged. -/
theorem readToken_literal {E : Extern} (interpreter : CommandsInterpreter) (command : Command)
    {source : List Char} {pos pos' : Nat} {v : Value} (kwargs : List (String × Value))
    (h : ReadsLiteral E source pos v pos') :
    readToken E interpreter command source pos kwargs = .ok ⟨false, v, pos', kwargs⟩ := by
  obtain ⟨c, q, q', hpeek, hc1, hc2, hval, _, hrest⟩ := h
  obtain ⟨_, hget, hnext⟩ := peek_ok hpeek
  have hne : (source[q]? != some ' ') = true := by
    rw [hget]; simpa using hc2
  have hrel : (c == '~') = false := by simpa using hc1
  unfold readToken
  simp only [hpeek, hrel, Bool.false_eq_true, if_false, hnext, hne, Bool.and_self, if_true, hval,
    Bool.not_false, Bool.true_and]
  rcases hrest with ⟨hend, rfl⟩ | ⟨hmore, c', hpeek', hc'⟩
  · simp [hend]
  · have : (c' == '=') = false := by simpa using hc'
    simp [hmore, hpeek', this]

/-- Every literal takes at least one character of the source. -/
theorem literalsTo_length {E : Extern} {source : List Char} {pos pos' : Nat} {vs : List Value}
    (h : LiteralsTo E source pos vs pos') : vs.length ≤ source.length - pos := by
  induction h with
  | nil pos => simp
  | @cons p mid p' v vs' hnext hread _ ih =>
    obtain ⟨c, q, q', hpeek, _, _, _, hlt, hrest⟩ := hread
    have h1 := (peek_ok hpeek).1
    have h2 : p < source.length := by simpa [hasNext] using hnext
    have h3 : q' ≤ mid := by
      rcases hrest with ⟨_, rfl⟩ | ⟨_, c', hpeek', _⟩
      · exact le_refl _
      · exact (peek_ok hpeek').1
    simp only [List.length_cons]
    omega

/-- One iteration of the main loop on a plain literal that the next slot accepts. -/
theorem promptStep_literal {E : Extern} (interpreter : CommandsInterpreter) {command : Command}
    {source : List Char} {pos pos' : Nat} {v : Value} (st : LoopState) (arg : Argument)
    (hpos : st.pos = pos) (h : ReadsLiteral E source pos v pos')
    (hslot : command.args[st.arg_index]? = some arg) (hacc : accepted arg v = true) :
    promptStep E interpreter command source st =
      .ok ⟨pos', st.arg_index + 1, st.args ++ [v], st.kwargs⟩ := by
  subst hpos
  have hdrop : command.args.drop st.arg_index =
      arg :: command.args.drop (st.arg_index + 1) := by
    have hlt := (List.getElem?_eq_some_iff.mp hslot).1
    have hget := (List.getElem?_eq_some_iff.mp hslot).2
    rw [List.drop_eq_getElem_cons hlt, hget]
  unfold promptStep
  rw [readToken_literal interpreter command st.kwargs h]
  simp [hdrop, bindPositional, typeCheck_accepted E pos' arg v hacc]

/-- The main loop over a run of plain literals, each accepted by its slot:
one iteration for each literal. -/
theorem promptLoop_literals {E : Extern} (interpreter : CommandsInterpreter) (command : Command)
    {source : List Char} {pos pos' : Nat} {vs : List Value}
    (h : LiteralsTo E source pos vs pos') :
    ∀ (k : Nat) (args : List Value) (kwargs : List (String × Value)) (fuel : Nat),
      (∀ i v, vs[i]? = some v → ∃ arg, command.args[k + i]? = some arg ∧ accepted arg v = true) →
      promptLoop E interpreter command source (fuel + vs.length) ⟨pos, k, args, kwargs⟩ =
        promptLoop E interpreter command source fuel ⟨pos', k + vs.length, args ++ vs, kwargs⟩ := by
  induction h with
  | nil pos => intro k args kwargs fuel _; simp
  | @cons p mid p' v vs' hnext hread _ ih =>
    intro k args kwargs fuel hslots
    obtain ⟨arg, harg, hacc⟩ := hslots 0 v (by simp)
    have hstep := promptStep_literal interpreter ⟨p, k, args, kwargs⟩ arg rfl hread
      (by simpa using harg) hacc
    have hfuel : fuel + (v :: vs').length = (fuel + vs'.length) + 1 := by
      simp only [List.length_cons]; omega
    rw [hfuel, promptLoop]
    simp only [hnext, if_true, hstep]
    rw [ih (k + 1) (args ++ [v]) kwargs fuel]
    · simp only [List.length_cons, List.append_assoc, List.singleton_append]
      congr 2
      omega
    · intro i w hw
      obtain ⟨a, ha, hacc'⟩ := hslots (i + 1) w (by simpa using hw)
      exact ⟨a, by rw [← ha]; congr 1; omega, hacc'⟩

/-- Slots and values paired by `List.Forall₂`, read by index. -/
theorem forall₂_accepted_slots {slots : List Argument} {vs : List Value}
    (h : List.Forall₂ (fun a v => accepted a v = true) slots vs) :
    slots.length = vs.length ∧
      ∀ i v, vs[i]? = some v → ∃ arg, slots[0 + i]? = some arg ∧ accepted arg v = true := by
  induction h with
  | nil => simp
  | @cons a v l1 l2 hav _ ih =>
    refine ⟨by simp [ih.1], ?_⟩
    intro i w hw
    cases i with
    | zero => simp at hw; subst hw; exact ⟨a, by simp, hav⟩
    | succ i =>
      obtain ⟨arg, harg, hacc⟩ := ih.2 i w (by simpa using hw)
      exact ⟨arg, by simpa using harg, hacc⟩

/-- The last loop of `parsePrompt` fails at the first mandatory slot. -/
theorem checkMissing_first_mandatory (E : Extern) (pos : Nat) :
    ∀ (slots : List Argument) (i : Nat) (arg : Argument),
      slots[i]? = some arg → arg.optional = false →
      (∀ j a, j < i → slots[j]? = some a → a.optional = true) →
      checkMissing E pos slots = .error (error pos ("missing argument " ++ E.quote arg.name)) := by
  intro slots
  induction slots with
  | nil => intro i arg h; simp at h
  | cons a rest ih =>
    intro i arg hget hmand hfirst
    cases i with
    | zero =>
      simp at hget; subst hget
      simp [checkMissing, hmand]
    | succ i =>
      have ha : a.optional = true := hfirst 0 a (by omega) (by simp)
      simp only [checkMissing, ha, Bool.not_true, Bool.false_eq_true, if_false]
      exact ih i arg (by simpa using hget) hmand
        (fun j b hj hb => hfirst (j + 1) b (by omega) (by simpa using hb))

/-- The positional binder moves `arg_index` forward and stops at the slot just before it. -/
theorem bindPositional_advances (E : Extern) (pos : Nat) (relative : Bool) (value : Value) :
    ∀ (slots : List Argument) (k : Nat) (arg : Argument) (k' : Nat),
      bindPositional E pos relative value slots k = .ok (arg, k') →
      k < k' ∧ slots[k' - 1 - k]? = some arg := by
  intro slots
  induction slots with
  | nil => intro k arg k' h; simp [bindPositional] at h
  | cons a rest ih =>
    intro k arg k' h
    unfold bindPositional at h
    split at h
    · injection h with h; injection h with h1 h2
      subst h1 h2
      exact ⟨by omega, by simp⟩
    · split at h
      · cases h
      · injection h with h; injection h with h1 h2
        subst h1 h2
        exact ⟨by omega, by simp⟩
      · obtain ⟨hlt, hget⟩ := ih (k + 1) arg k' h
        refine ⟨by omega, ?_⟩
        have : k' - 1 - k = (k' - 1 - (k + 1)) + 1 := by omega
        rw [this]
        simpa using hget

/-- Wrapping leaves a representable integer as it is. -/
theorem integer_wrap_representable {i : Int} (h : integer_representable i) :
    integer_wrap i = i := by
  unfold integer_representable at h
  unfold integer_wrap
  simp only [integer_bits] at h ⊢
  norm_num at h ⊢
  omega

/-- The main loop ends when no input is left. -/
theorem promptLoop_done (E : Extern) (interpreter : CommandsInterpreter) (command : Command)
    (source : List Char) (fuel : Nat) (st : LoopState) (h : hasNext source st.pos = false) :
    promptLoop E interpreter command source (fuel + 1) st = some (.ok st) := by
  simp [promptLoop, h]

/-- The slots from index `k` on begin with the slot at `k`. -/
theorem drop_getElem_cons {α : Type} {l : List α} {k : Nat} {a : α} (h : l[k]? = some a) :
    l.drop k = a :: l.drop (k + 1) := by
  have hlt := (List.getElem?_eq_some_iff.mp h).1
  have hget := (List.getElem?_eq_some_iff.mp h).2
  rw [List.drop_eq_getElem_cons hlt, hget]

/-- An iteration that finds no slot left fails with `extra positional argument`. -/
theorem promptStep_no_slot {E : Extern} (interpreter : CommandsInterpreter) (command : Command)
    (source : List Char) (st : LoopState) (tok : Token)
    (hidx : command.args.length ≤ st.arg_index)
    (htok : readToken E interpreter command source st.pos st.kwargs = .ok tok) :
    promptStep E interpreter command source st =
      .error (Failure.parsing_error tok.pos "extra positional argument") := by
  unfold promptStep
  simp [htok, List.drop_eq_nil_of_le hidx, bindPositional, error]

/-- A successful iteration of the main loop increases `arg_index`. -/
theorem promptStep_advances {E : Extern} (interpreter : CommandsInterpreter) (command : Command)
    (source : List Char) (st st' : LoopState)
    (h : promptStep E interpreter command source st = .ok st') :
    st.arg_index < st'.arg_index := by
  unfold promptStep at h
  split at h
  · cases h
  · rename_i tok _
    split at h
    · cases h
    · rename_i arg k' hbind
      have hk := (bindPositional_advances E _ _ _ _ _ _ _ hbind).1
      split at h
      · cases h
      · injection h with h
        subst h
        exact hk

/-- `applyRelative` on an Integer slot, with Integer origin and delta. -/
theorem applyRelative_integer (E : Extern) (pos : Nat) (arg : Argument) (o d : Int)
    (htype : arg.type = ArgType.integer) :
    applyRelative E pos arg (Value.integer d) (Value.integer o) =
      .ok (Value.integer (integer_add o d)) := by
  simp [applyRelative, dynamic.index, htype, dynamic.get_integer]

/-- A relative value stops the binder at a slot that declares an origin. -/
theorem bindPositional_relative_origin (E : Extern) (pos : Nat) (value : Value) (arg : Argument)
    (slots : List Argument) (k : Nat) (h : dynamic.index arg.origin ≠ 0) :
    bindPositional E pos true value (arg :: slots) k = .ok (arg, k + 1) := by
  simp [bindPositional, h]

/-- `typeCheck` returns false on an optional slot whose type does not match the kind of the value. -/
theorem typeCheck_skips (E : Extern) (pos : Nat) (arg : Argument) (value : Value)
    (hopt : arg.optional = true) (hkind : kindMatches arg.type value = false) :
    typeCheck E pos arg value = .ok false := by
  obtain ⟨name, type, optional, d, origin, enumname⟩ := arg
  cases type <;> cases value <;>
    simp_all [typeCheck, typeCheckT, kindMatches, dynamic.is_numeric, holds_integer, holds_string]

/-- The value stored under a key by `insert_or_assign` is the one found there. -/
theorem lookup_insert_or_assign_self {β : Type} (m : List (String × β)) (key : String)
    (value : β) : (insert_or_assign m key value).lookup key = some value := by
  induction m with
  | nil => simp [insert_or_assign, List.lookup]
  | cons e rest ih =>
    obtain ⟨k, v⟩ := e
    by_cases h : k = key
    · simp [insert_or_assign, h, List.lookup]
    · have h' : (key == k) = false := by simpa using fun e => h e.symm
      simp [insert_or_assign, h, List.lookup, h', ih]

/-- `insert_or_assign` leaves the other keys as they were. -/
theorem lookup_insert_or_assign_other {β : Type} (m : List (String × β)) (key other : String)
    (value : β) (hne : other ≠ key) :
    (insert_or_assign m key value).lookup other = m.lookup other := by
  induction m with
  | nil =>
    have h' : (other == key) = false := by simpa using hne
    simp [insert_or_assign, List.lookup, h']
  | cons e rest ih =>
    obtain ⟨k, v⟩ := e
    by_cases h : k = key
    · subst h
      have h' : (other == k) = false := by simpa using hne
      simp [insert_or_assign, List.lookup, h']
    · simp only [insert_or_assign, h, if_false, List.lookup, ih]

/-- A key that no entry has is not found. -/
theorem lookup_absent {β : Type} (m : List (String × β)) (key : String)
    (h : ∀ entry ∈ m, entry.1 ≠ key) : m.lookup key = none := by
  induction m with
  | nil => rfl
  | cons e rest ih =>
    obtain ⟨k, v⟩ := e
    have hk : (key == k) = false := by
      have := h (k, v) (by simp)
      simpa using fun e => this e.symm
    simp only [List.lookup, hk]
    exact ih (fun entry he => h entry (by simp [he]))

/-- The element right after the longest run of elements with `p` does not have `p`. -/
theorem takeWhile_stop {α : Type} (p : α → Bool) :
    ∀ (l : List α) (c : α), l[(l.takeWhile p).length]? = some c → p c = false := by
  intro l
  induction l with
  | nil => intro c h; simp at h
  | cons a rest ih =>
    intro c h
    by_cases ha : p a = true
    · simp only [List.takeWhile_cons, ha, if_true, List.length_cons, List.getElem?_cons_succ] at h
      exact ih c h
    · simp only [List.takeWhile_cons, ha] at h
      simp at h
      subst h
      simpa using ha

/-- The character `peek` returns is not whitespace. -/
theorem peek_not_whitespace {E : Extern} {source : List Char} {pos q : Nat} {c : Char}
    (h : peek E source pos = .ok (c, q)) : E.is_whitespace c = false := by
  have hq : q = skipWhitespace E source pos ∧ source[q]? = some c := by
    unfold peek at h
    split at h
    · rename_i c' hc
      injection h with h
      injection h with h1 h2
      subst h1 h2
      exact ⟨rfl, hc⟩
    · cases h
  obtain ⟨hq1, hq2⟩ := hq
  apply takeWhile_stop E.is_whitespace (source.drop pos) c
  rw [List.getElem?_drop]
  unfold skipWhitespace at hq1
  rw [← hq1]
  exact hq2

/-- There is no whitespace to skip at a character that is not whitespace. -/
theorem skipWhitespace_stable {E : Extern} {source : List Char} {q : Nat} {c : Char}
    (hget : source[q]? = some c) (hws : E.is_whitespace c = false) :
    skipWhitespace E source q = q := by
  have hdrop := drop_getElem_cons hget
  simp [skipWhitespace, hdrop, List.takeWhile_cons, hws]

/-- `peek` at a character that is not whitespace returns it and stays. -/
theorem peek_at {E : Extern} {source : List Char} {q : Nat} {c : Char}
    (hget : source[q]? = some c) (hws : E.is_whitespace c = false) :
    peek E source q = .ok (c, q) := by
  simp [peek, skipWhitespace_stable hget hws, hget]

/-- `peek` again, from where `peek` left the cursor, returns the same. -/
theorem peek_stable {E : Extern} {source : List Char} {pos q : Nat} {c : Char}
    (h : peek E source pos = .ok (c, q)) : peek E source q = .ok (c, q) :=
  peek_at (peek_ok h).2.1 (peek_not_whitespace h)

/-- A spec without `|` holds no `"|" + value + "|"`. -/
theorem contains_no_bar (spec s : String) (h : '|' ∉ spec.data) :
    contains spec ("|" ++ s ++ "|") = false := by
  unfold contains
  have hd : ("|" ++ s ++ "|").data = '|' :: (s.data ++ ['|']) := by simp
  rw [hd]
  simp only [decide_eq_false_iff_not]
  intro hin
  exact h (hin.subset (by simp))

/-- When some element does not have `p`, the first such element is right after the
longest run of elements with `p`. -/
theorem takeWhile_first_fail {α : Type} (p : α → Bool) :
    ∀ (l : List α), (∃ x ∈ l, p x = false) →
      ∃ y, l[(l.takeWhile p).length]? = some y ∧ p y = false := by
  intro l
  induction l with
  | nil => rintro ⟨x, hx, _⟩; simp at hx
  | cons a rest ih =>
    rintro ⟨x, hx, hpx⟩
    by_cases ha : p a = true
    · have hrest : ∃ x ∈ rest, p x = false := by
        rcases List.mem_cons.mp hx with rfl | h
        · rw [ha] at hpx; cases hpx
        · exact ⟨x, h, hpx⟩
      obtain ⟨y, hy, hpy⟩ := ih hrest
      exact ⟨y, by simpa [List.takeWhile_cons, ha] using hy, hpy⟩
    · exact ⟨a, by simp [List.takeWhile_cons, ha], by simpa using ha⟩

/-- The elements of the longest run with `p` are the first elements of the list, and have `p`. -/
theorem takeWhile_getElem {α : Type} (p : α → Bool) :
    ∀ (l : List α) (j : Nat) (y : α), (l.takeWhile p)[j]? = some y → l[j]? = some y ∧ p y = true := by
  intro l
  induction l with
  | nil => intro j y h; simp at h
  | cons a rest ih =>
    intro j y h
    by_cases ha : p a = true
    · simp only [List.takeWhile_cons, ha, if_true] at h
      cases j with
      | zero => simp at h; subst h; exact ⟨by simp, ha⟩
      | succ j => simpa using ih j y (by simpa using h)
    · simp [List.takeWhile_cons, ha] at h

/-- The longest run with `p` ends in the first list when an element there does not have `p`. -/
theorem takeWhile_append_fail {α : Type} (p : α → Bool) (l₁ l₂ : List α)
    (h : ∃ x ∈ l₁, p x = false) : (l₁ ++ l₂).takeWhile p = l₁.takeWhile p := by
  induction l₁ with
  | nil => obtain ⟨x, hx, _⟩ := h; simp at hx
  | cons a rest ih =>
    obtain ⟨x, hx, hpx⟩ := h
    by_cases ha : p a = true
    · have hrest : ∃ x ∈ rest, p x = false := by
        rcases List.mem_cons.mp hx with rfl | h
        · rw [ha] at hpx; cases hpx
        · exact ⟨x, h, hpx⟩
      simp [List.takeWhile_cons, ha, ih hrest]
    · simp [List.takeWhile_cons, ha]

/-- `parseType` on a type position that opens an inline set, with or without
the keyword `enum` before it. -/
theorem parseType_inline_or_keyword {E : Extern} {source : List Char} {p2 p3 q : Nat}
    (hform : (peek E source p2 = .ok ('[', q) ∧ p3 = q) ∨
      (∃ c q0, peek E source p2 = .ok (c, q0) ∧ c ≠ '[' ∧
        parseIdentifier E source q0 false = .ok ("enum", p3) ∧
        peek E source p3 = .ok ('[', q))) :
    parseType E source p2 = .ok (ArgType.enumvalue, p3) ∧ peek E source p3 = .ok ('[', q) := by
  rcases hform with ⟨h, rfl⟩ | ⟨c, q0, h, hc, hid, hopen⟩
  · refine ⟨by simp [parseType, h], ?_⟩
    exact peek_at (peek_ok h).2.1 (peek_not_whitespace h)
  · have hcb : (c == '[') = false := by simpa using hc
    exact ⟨by simp [parseType, h, hcb, hid, types], hopen⟩

/-- `parseEnum` on an inline set whose body has no space and no `]` and does
not begin with whitespace. -/
theorem parseEnum_inline {E : Extern} {source : List Char} {p3 q : Nat}
    {body rest : List Char}
    (hopen : peek E source p3 = .ok ('[', q))
    (hbody : source.drop (q + 1) = body ++ ']' :: rest)
    (hne : body ≠ []) (hsp : ' ' ∉ body) (hbr : ']' ∉ body)
    (hws : ∀ c ∈ body.head?, E.is_whitespace c = false) :
    parseEnum E source p3 = .ok ("|" ++ String.mk body ++ "|", q + 1 + body.length + 1) := by
  obtain ⟨_, hgetq, _⟩ := peek_ok hopen
  obtain ⟨b, tail, rfl⟩ := List.exists_cons_of_ne_nil hne
  have hb0 : source[q + 1]? = some b := by
    have : (source.drop (q + 1))[0]? = some b := by rw [hbody]; simp
    rwa [List.getElem?_drop] at this
  have hpeek1 : peek E source (q + 1) = .ok (b, q + 1) := peek_at hb0 (hws b (by simp))
  have hbb : (b == ']') = false := by
    have : b ≠ ']' := fun e => hbr (by simp [e])
    simpa using this
  have htake : (source.drop (q + 1)).takeWhile (fun x => x != ']') = b :: tail := by
    rw [hbody, List.takeWhile_append_of_pos]
    · simp
    · intro a ha
      have : a ≠ ']' := fun e => hbr (e ▸ ha)
      simpa using this
  have hclose : source[q + 1 + (b :: tail).length]? = some ']' := by
    have : (source.drop (q + 1))[(b :: tail).length]? = some ']' := by
      rw [hbody, List.getElem?_append_right (le_refl _)]; simp
    rwa [List.getElem?_drop] at this
  have hdata : ("|" ++ String.mk (b :: tail) ++ "|").data = '|' :: ((b :: tail) ++ ['|']) := by
    simp
  have hmem : ¬ ' ' ∈ ("|" ++ String.mk (b :: tail) ++ "|").data := by
    rw [hdata]
    intro h
    simp only [List.mem_cons, List.mem_append, List.mem_singleton] at h
    rcases h with h | h | h
    · exact absurd h (by decide)
    · exact hsp (by simpa using h)
    · rcases h with h | h
      · exact absurd h (by decide)
      · simp at h
  simp only [parseEnum, hopen, nextChar, hgetq, hpeek1, hbb, readUntil, htake]
  simp only [beq_self_eq_true, if_true, Bool.false_eq_true, if_false, hmem, hclose]

/-- One more modifier in front: its value is the last one of its marker unless a later one is. -/
theorem lastValueOr_cons (marker : Bool) (d : Value) (b : Bool) (v : Value)
    (ms : List (Bool × Value)) :
    lastValueOr marker d ((b, v) :: ms) = lastValueOr marker (if b = marker then v else d) ms := by
  unfold lastValueOr
  by_cases hb : b = marker
  · subst hb
    simp only [List.filter_cons, beq_self_eq_true, if_true]
    cases h : ms.filter (fun m => m.1 == b) with
    | nil => simp
    | cons x xs =>
      have hx : ((b, v) :: x :: xs).getLast? = (x :: xs).getLast? := List.getLast?_cons_cons
      rw [hx]
      cases h2 : (x :: xs).getLast? with
      | none => simp at h2
      | some y => rfl
  · have : (b == marker) = false := by simpa using hb
    simp [List.filter_cons, this, hb]

/-- Every modifier takes at least one character of the source. -/
theorem modifiersTo_length {E : Extern} {source : List Char} {pos pos' : Nat}
    {ms : List (Bool × Value)} (h : ModifiersTo E source pos ms pos') :
    ms.length ≤ source.length - pos := by
  induction h with
  | nil pos => simp
  | @cons p q mid p' c v ms' hnext hpeek _ hval hlt _ ih =>
    have h2 : p < source.length := by simpa [hasNext] using hnext
    simp only [List.length_cons]
    omega

/-- The modifier loop over a run of modifiers: one iteration for each. -/
theorem parseModifiers_run {E : Extern} {source : List Char} {pos pos' : Nat}
    {ms : List (Bool × Value)} (h : ModifiersTo E source pos ms pos') :
    ∀ (optional : Bool) (d origin : Value) (fuel : Nat),
      parseModifiers E source (fuel + ms.length) ⟨optional, d, origin, pos⟩ =
        parseModifiers E source fuel
          ⟨optional || ms.any (fun m => m.1), lastValueOr true d ms, lastValueOr false origin ms,
            pos'⟩ := by
  induction h with
  | nil pos => intro optional d origin fuel; simp [lastValueOr]
  | @cons p q mid p' c v ms' hnext hpeek hc hval hlt _ ih =>
    intro optional d origin fuel
    obtain ⟨_, hget, _⟩ := peek_ok hpeek
    have hfuel : fuel + ((c == '=', v) :: ms').length = (fuel + ms'.length) + 1 := by
      simp only [List.length_cons]; omega
    rw [hfuel, parseModifiers]
    rcases hc with rfl | rfl
    · simp only [hnext, if_true, hpeek, beq_self_eq_true, nextChar, hget, hval]
      rw [ih]
      simp [lastValueOr_cons]
    · have h1 : (('~' : Char) == '=') = false := by decide
      simp only [hnext, if_true, hpeek, h1, Bool.false_eq_true, if_false, beq_self_eq_true,
        nextChar, hget, hval]
      rw [ih]
      simp [lastValueOr_cons]

/-- The modifier loop ends at the end of the source and at a character that is no marker. -/
theorem parseModifiers_end {E : Extern} {source : List Char} {p5 pe : Nat} (m : Modifiers)
    (fuel : Nat) (hpos : m.pos = p5)
    (hend : (hasNext source p5 = false ∧ pe = p5) ∨
      (hasNext source p5 = true ∧ ∃ c, peek E source p5 = .ok (c, pe) ∧ c ≠ '=' ∧ c ≠ '~')) :
    parseModifiers E source (fuel + 1) m = some (.ok ⟨m.optional, m.def, m.origin, pe⟩) := by
  subst hpos
  rcases hend with ⟨h, rfl⟩ | ⟨h, c, hpeek, h1, h2⟩
  · simp [parseModifiers, h]
  · have e1 : (c == '=') = false := by simpa using h1
    have e2 : (c == '~') = false := by simpa using h2
    simp [parseModifiers, h, hpeek, e1, e2]

/-- `typeCheck` throws its type error on a mandatory slot whose type does not match
the kind of the value. -/
theorem typeCheck_mandatory_mismatch (E : Extern) (pos : Nat) (arg : Argument) (value : Value)
    (hopt : arg.optional = false) (hkind : kindMatches arg.type value = false) :
    typeCheck E pos arg value =
      .error (typeError E pos arg.name (expectedName arg.type) value) := by
  obtain ⟨name, type, optional, d, origin, enumname⟩ := arg
  cases type <;> cases value <;>
    simp_all [typeCheck, typeCheckT, kindMatches, dynamic.is_numeric, holds_integer, holds_string,
      expectedName]

/-- The value `put` stores under a key is the one found there. -/
theorem lookup_put_self (m : List (String × Value)) (key : String) (value : Value) :
    (Map.put m key value).lookup key = some value := by
  induction m with
  | nil => simp [Map.put, List.lookup]
  | cons e rest ih =>
    obtain ⟨k, v⟩ := e
    by_cases h : k = key
    · simp [Map.put, h, List.lookup]
    · have h' : (key == k) = false := by simpa using fun e => h e.symm
      simp [Map.put, h, List.lookup, h', ih]

/-- C1: `typeCheck` has exactly three outcomes. It returns true exactly when
the kind of the value matches the declared type (for `enumvalue`: a String
that is a member of the enum spec); it returns false exactly when the kind
does not match and the argument is optional; it fails (with a parse error at
the cursor) exactly when the kind does not match and the argument is
mandatory, or the argument is an `enumvalue` and the value is a String that
is not a member of the spec, optional or not. -/
theorem typeCheck_three_outcomes (E : Extern) (pos : Nat) (arg : Argument) (value : Value) :
    (typeCheck E pos arg value = .ok true ↔
        (kindMatches arg.type value = true ∧
          (arg.type = ArgType.enumvalue → enumMember arg value = true))) ∧
    (typeCheck E pos arg value = .ok false ↔
        (kindMatches arg.type value = false ∧ arg.optional = true)) ∧
    ((∃ e, typeCheck E pos arg value = .error e) ↔
        ((kindMatches arg.type value = false ∧ arg.optional = false) ∨
          (arg.type = ArgType.enumvalue ∧
            ∃ s, value = Value.string s ∧ enumMember arg value = false))) ∧
    (typeCheck E pos arg value = .ok true ∨ typeCheck E pos arg value = .ok false ∨
      ∃ message, typeCheck E pos arg value = .error (Failure.parsing_error pos message)) := by
  obtain ⟨name, type, optional, d, origin, enumname⟩ := arg
  cases type <;> cases value <;> cases optional <;>
    simp [typeCheck, typeCheckT, kindMatches, enumMember, dynamic.is_numeric, holds_integer,
      holds_string, typeError, argumentError, error] <;>
    (try split) <;> simp_all [error]

/-- C2, as the code has it: for an `enumvalue` argument with the enum spec
`|a|b|c|` that `parseEnum` compiles from `[a|b|c]`, `typeCheck` accepts a
String exactly when `"|" + value + "|"` occurs in the spec, that is when the
value is one of `a`, `b`, `c`, `a|b`, `b|c`, `a|b|c`; every other String is
rejected with the error `invalid enumeration value`, optional or not. -/
theorem typeCheck_inline_enum_abc (E : Extern) (pos : Nat) (name : String) (optional : Bool)
    (d origin : Value) (s : String) :
    parseEnum asciiExtern "[a|b|c]".data 0 = .ok ("|a|b|c|", 7) ∧
    typeCheck E pos ⟨name, ArgType.enumvalue, optional, d, origin, "|a|b|c|"⟩ (Value.string s) =
      (if s ∈ abcRuns then .ok true
       else .error (Failure.parsing_error pos
        ("argument " ++ E.quote name ++ ": invalid enumeration value"))) := by
  refine ⟨by decide, ?_⟩
  simp only [typeCheck, contains_abc, error]
  by_cases h : s ∈ abcRuns <;> simp [h]

/-- C2 fails as stated: the String `a|b` is none of `a`, `b`, `c`, and
`typeCheck` accepts it for the enum spec compiled from `[a|b|c]`. -/
theorem typeCheck_inline_enum_abc_counterexample :
    ¬ (∀ s : String,
        typeCheck asciiExtern 0 ⟨"mode", ArgType.enumvalue, false, Value.none, Value.none, "|a|b|c|"⟩
            (Value.string s) = .ok true ↔
          (s = "a" ∨ s = "b" ∨ s = "c")) := by
  intro h
  have h1 := (h "a|b").mp (by decide)
  revert h1
  decide

/-- C3: when the prompt is the name of a registered command followed by
plain literals, as many as the command has positional slots, and the value
of the i-th literal is accepted by the i-th slot (its kind matches, and for
an `enumvalue` slot it is a member of the spec), `parsePrompt` succeeds and
returns the command with the values of the literals, in order, as positional
list, and an empty keyword map. Mandatory slots without keyword slots are a
special case. -/
theorem parsePrompt_binds_literals (E : Extern) (interpreter : CommandsInterpreter)
    (source : List Char) (name : String) (p0 : Nat) (command : Command) (vs : List Value)
    (pe : Nat)
    (hname : parseIdentifier E source 0 true = .ok (name, p0))
    (hcmd : interpreter.repository.get name = some command)
    (hlits : LiteralsTo E source p0 vs pe)
    (hend : hasNext source pe = false)
    (hacc : List.Forall₂ (fun a v => accepted a v = true) command.args vs) :
    parsePrompt E interpreter source = some (.ok ⟨command, vs, []⟩) := by
  obtain ⟨hlen, hslots⟩ := forall₂_accepted_slots hacc
  have hn := literalsTo_length hlits
  have hfuel : source.length + 1 = (source.length - vs.length) + 1 + vs.length := by omega
  unfold parsePrompt parsePromptFuel
  simp only [hname, hcmd]
  rw [hfuel, promptLoop_literals interpreter command hlits 0 [] [] _ hslots,
    promptLoop_done _ _ _ _ _ _ hend]
  simp [← hlen, checkMissing]

/-- C3 at `mark 12 hello`, for the command `mark` with the mandatory slots
`x` (Integer) and `label` (String). -/
theorem parsePrompt_binds_literals_witness :
    LiteralsTo asciiExtern "mark 12 hello".data 4 [Value.integer 12, Value.string "hello"] 13 ∧
    parsePrompt asciiExtern exampleInterpreter "mark 12 hello".data =
      some (.ok ⟨markCommand, [Value.integer 12, Value.string "hello"], []⟩) :=
  have hlits : LiteralsTo asciiExtern "mark 12 hello".data 4
      [Value.integer 12, Value.string "hello"] 13 :=
    .cons (by decide)
      (show ReadsLiteral asciiExtern "mark 12 hello".data 4 (Value.integer 12) 8 from
        ⟨'1', 5, 7, by decide, by decide, by decide, by decide, by decide,
          Or.inr ⟨by decide, 'h', by decide, by decide⟩⟩)
      (.cons (by decide)
        (show ReadsLiteral asciiExtern "mark 12 hello".data 8 (Value.string "hello") 13 from
          ⟨'h', 8, 13, by decide, by decide, by decide, by decide, by decide,
            Or.inl ⟨by decide, rfl⟩⟩)
        (.nil 13))
  ⟨hlits, parsePrompt_binds_literals asciiExtern exampleInterpreter "mark 12 hello".data "mark" 4
    markCommand [Value.integer 12, Value.string "hello"] 13 (by decide) (by decide) hlits
    (by decide) (.cons (by decide) (.cons (by decide) .nil))⟩

/-- C4 fails on the code: after a keyword assignment the loop body of
`parsePrompt` does not go on to the next token, it binds the keyword name as
a positional value. With no positional slot, `give count=5` fails with
`extra positional argument`; with a String slot, `say count=5` stores 5 under
`count` and also binds the String `count` to the slot `text`. -/
theorem parsePrompt_keyword_falls_through :
    parsePrompt asciiExtern exampleInterpreter "give count=5".data =
      some (.error (Failure.parsing_error 12 "extra positional argument")) ∧
    parsePrompt asciiExtern exampleInterpreter "say count=5".data =
      some (.ok ⟨sayCommand, [Value.string "count"], [("count", Value.integer 5)]⟩) := by
  constructor <;> decide

/-- C5: when the main loop of `parsePrompt` ends without error, with
`arg_index` past the last slot it used, and a mandatory positional slot lies
at or after `arg_index`, `parsePrompt` fails with `missing argument` and the
quoted name of the first such slot; no Prompt is returned. -/
theorem parsePrompt_missing_argument (E : Extern) (interpreter : CommandsInterpreter)
    (source : List Char) (name : String) (p0 : Nat) (command : Command) (st : LoopState)
    (i : Nat) (arg : Argument)
    (hname : parseIdentifier E source 0 true = .ok (name, p0))
    (hcmd : interpreter.repository.get name = some command)
    (hloop : promptLoop E interpreter command source (source.length + 1) ⟨p0, 0, [], []⟩ =
      some (.ok st))
    (hi : st.arg_index ≤ i)
    (harg : command.args[i]? = some arg)
    (hmand : arg.optional = false)
    (hfirst : ∀ j a, st.arg_index ≤ j → j < i → command.args[j]? = some a → a.optional = true) :
    parsePrompt E interpreter source =
      some (.error (Failure.parsing_error st.pos ("missing argument " ++ E.quote arg.name))) := by
  unfold parsePrompt parsePromptFuel
  simp only [hname, hcmd, hloop]
  have h := checkMissing_first_mandatory E st.pos (command.args.drop st.arg_index)
    (i - st.arg_index) arg
    (by rw [List.getElem?_drop, ← harg]; congr 1; omega) hmand
    (fun j a hj ha => hfirst (st.arg_index + j) a (by omega) (by omega)
      (by rw [List.getElem?_drop] at ha; exact ha))
  rw [h]
  rfl

/-- C5 at `mark 12`: the slot `label` is missing. -/
theorem parsePrompt_missing_argument_witness :
    parsePrompt asciiExtern exampleInterpreter "mark 12".data =
      some (.error (Failure.parsing_error 7 "missing argument \"label\"")) :=
  parsePrompt_missing_argument asciiExtern exampleInterpreter "mark 12".data "mark" 4 markCommand
    ⟨7, 1, [Value.integer 12], []⟩ 1 ⟨"label", ArgType.string, false, Value.none, Value.none, ""⟩
    (by decide) (by decide) (by decide) (by decide) (by decide) (by decide)
    (fun j a h1 h2 => by
      have h3 : (⟨7, 1, [Value.integer 12], []⟩ : LoopState).arg_index = 1 := rfl
      omega)

/-- C6: when the prompt supplies as many plain literals as the command has
positional slots, each accepted by its slot, and one further plain literal,
`parsePrompt` fails with `extra positional argument`. More generally, an
iteration of the main loop that starts with `arg_index` past the last slot
and reads its token without error fails with that error; an iteration that
succeeds leaves `arg_index` larger than it found it; and the slot the
positional binder stops at, from `arg_index = k`, has an index of at least
`k`: no earlier slot is used again. -/
theorem parsePrompt_extra_positional (E : Extern) (interpreter : CommandsInterpreter)
    (source : List Char) (name : String) (p0 : Nat) (command : Command) (vs : List Value)
    (pe : Nat) (v : Value) (pe' : Nat)
    (hname : parseIdentifier E source 0 true = .ok (name, p0))
    (hcmd : interpreter.repository.get name = some command)
    (hlits : LiteralsTo E source p0 vs pe)
    (hacc : List.Forall₂ (fun a v => accepted a v = true) command.args vs)
    (hnext : hasNext source pe = true)
    (hextra : ReadsLiteral E source pe v pe') :
    parsePrompt E interpreter source =
      some (.error (Failure.parsing_error pe' "extra positional argument")) ∧
    (∀ (st : LoopState) (tok : Token), command.args.length ≤ st.arg_index →
      readToken E interpreter command source st.pos st.kwargs = .ok tok →
      promptStep E interpreter command source st =
        .error (Failure.parsing_error tok.pos "extra positional argument")) ∧
    (∀ st st' : LoopState, promptStep E interpreter command source st = .ok st' →
      st.arg_index < st'.arg_index) ∧
    (∀ (pos : Nat) (relative : Bool) (value : Value) (k : Nat) (arg : Argument) (k' : Nat),
      bindPositional E pos relative value (command.args.drop k) k = .ok (arg, k') →
      k < k' ∧ command.args[k' - 1]? = some arg) := by
  refine ⟨?_, fun st tok => promptStep_no_slot interpreter command source st tok,
    fun st st' => promptStep_advances interpreter command source st st', ?_⟩
  · obtain ⟨hlen, hslots⟩ := forall₂_accepted_slots hacc
    have hn := literalsTo_length hlits
    have hfuel : source.length + 1 = (source.length - vs.length) + 1 + vs.length := by omega
    have htok := readToken_literal interpreter command ([] : List (String × Value)) hextra
    have hstep := promptStep_no_slot interpreter command source
      ⟨pe, 0 + vs.length, [] ++ vs, []⟩ ⟨false, v, pe', []⟩ (by simp [hlen]) htok
    unfold parsePrompt parsePromptFuel
    simp only [hname, hcmd]
    rw [hfuel, promptLoop_literals interpreter command hlits 0 [] [] _ hslots, promptLoop]
    simp only [hnext, if_true, hstep]
  · intro pos relative value k arg k' h
    obtain ⟨hk, hget⟩ := bindPositional_advances E pos relative value _ k arg k' h
    refine ⟨hk, ?_⟩
    rw [List.getElem?_drop] at hget
    rw [← hget]
    congr 1
    omega

/-- C6 at `mark 12 hello 7`: two slots, three literals. -/
theorem parsePrompt_extra_positional_witness :
    LiteralsTo asciiExtern "mark 12 hello 7".data 4 [Value.integer 12, Value.string "hello"] 14 ∧
    ReadsLiteral asciiExtern "mark 12 hello 7".data 14 (Value.integer 7) 15 ∧
    parsePrompt asciiExtern exampleInterpreter "mark 12 hello 7".data =
      some (.error (Failure.parsing_error 15 "extra positional argument")) :=
  have hlits : LiteralsTo asciiExtern "mark 12 hello 7".data 4
      [Value.integer 12, Value.string "hello"] 14 :=
    .cons (by decide)
      (show ReadsLiteral asciiExtern "mark 12 hello 7".data 4 (Value.integer 12) 8 from
        ⟨'1', 5, 7, by decide, by decide, by decide, by decide, by decide,
          Or.inr ⟨by decide, 'h', by decide, by decide⟩⟩)
      (.cons (by decide)
        (show ReadsLiteral asciiExtern "mark 12 hello 7".data 8 (Value.string "hello") 14 from
          ⟨'h', 8, 13, by decide, by decide, by decide, by decide, by decide,
            Or.inr ⟨by decide, '7', by decide, by decide⟩⟩)
        (.nil 14))
  have hextra : ReadsLiteral asciiExtern "mark 12 hello 7".data 14 (Value.integer 7) 15 :=
    ⟨'7', 14, 15, by decide, by decide, by decide, by decide, by decide,
      Or.inl ⟨by decide, rfl⟩⟩
  ⟨hlits, hextra,
    (parsePrompt_extra_positional asciiExtern exampleInterpreter "mark 12 hello 7".data "mark" 4
      markCommand [Value.integer 12, Value.string "hello"] 14 (Value.integer 7) 15
      (by decide) (by decide) hlits (.cons (by decide) (.cons (by decide) .nil))
      (by decide) hextra).1⟩

/-- C7, as the code has it: for the command `heal` and `health = 50`, the
prompt `heal 7` yields the positional list `[7]` and an empty keyword map;
the optional slot `amount` that the prompt does not supply is left unbound. -/
theorem parsePrompt_heal_7 :
    parsePrompt asciiExtern exampleInterpreter "heal 7".data =
      some (.ok ⟨healCommand, [Value.integer 7], []⟩) := by
  decide

/-- C7 fails as stated: parsing `heal 7` does not yield a Prompt whose
positional list is `[7, 10]`. -/
theorem parsePrompt_heal_7_counterexample :
    ¬ (∃ prompt : Prompt,
        parsePrompt asciiExtern exampleInterpreter "heal 7".data = some (.ok prompt) ∧
          prompt.args = [Value.integer 7, Value.integer 10]) := by
  rintro ⟨prompt, h, hargs⟩
  have e : parsePrompt asciiExtern exampleInterpreter "heal 7".data =
      some (.ok ⟨healCommand, [Value.integer 7], []⟩) := by decide
  rw [e] at h
  injection h with h
  injection h with h
  subst h
  revert hargs
  decide

/-- C8, as the code has it: when the next slot not yet consumed is an Integer slot whose origin
is a String naming a variable that resolves to the Integer `o`, an iteration
of the main loop at `~d`, with `d` an Integer literal, binds `o + d` in
`integer_t` arithmetic (which is `o + d` whenever that is representable), and
an iteration at a bare `~`, followed by a space or by the end of the source,
binds `o` itself. -/
theorem promptStep_relative_integer (E : Extern) (interpreter : CommandsInterpreter)
    (command : Command) (source : List Char) (st : LoopState) (q : Nat) (arg : Argument)
    (nm : String) (o : Int)
    (hpeek : peek E source st.pos = .ok ('~', q))
    (hslot : command.args[st.arg_index]? = some arg)
    (htype : arg.type = ArgType.integer)
    (horigin : arg.origin = Value.string nm)
    (hres : interpreter.resolve nm = Value.integer o) :
    (∀ (d : Int) (q' : Nat), hasNext source (q + 1) = true → source[q + 1]? ≠ some ' ' →
      parseValue E source (q + 1) = .ok (Value.integer d, q') →
      promptStep E interpreter command source st =
        .ok ⟨q', st.arg_index + 1, st.args ++ [Value.integer (integer_add o d)], st.kwargs⟩) ∧
    ((source[q + 1]? = some ' ' ∨ hasNext source (q + 1) = false) → integer_representable o →
      promptStep E interpreter command source st =
        .ok ⟨q + 1, st.arg_index + 1, st.args ++ [Value.integer o], st.kwargs⟩) ∧
    (∀ d : Int, integer_representable (o + d) → integer_add o d = o + d) := by
  obtain ⟨_, hget, _⟩ := peek_ok hpeek
  have hdrop := drop_getElem_cons hslot
  have hidx : dynamic.index arg.origin ≠ 0 := by rw [horigin]; simp [dynamic.index]
  have hfetch : fetchOrigin interpreter arg = Value.integer o := by
    simp [fetchOrigin, horigin, dynamic.is_numeric, hres]
  refine ⟨?_, ?_, fun d hd => integer_wrap_representable hd⟩
  · intro d q' hnext hsp hval
    have hsp' : (source[q + 1]? != some ' ') = true := by simpa using hsp
    have htok : readToken E interpreter command source st.pos st.kwargs =
        .ok ⟨true, Value.integer d, q', st.kwargs⟩ := by
      unfold readToken
      simp [hpeek, nextChar, hget, hnext, hsp', hval]
    unfold promptStep
    rw [htok]
    simp only [hdrop, bindPositional_relative_origin E _ _ arg _ _ hidx, hfetch, if_true,
      applyRelative_integer E _ arg o d htype]
  · intro hbare hrep
    have hcond : (hasNext source (q + 1) && source[q + 1]? != some ' ') = false := by
      rcases hbare with h | h
      · simp [h]
      · simp [h]
    have htok : readToken E interpreter command source st.pos st.kwargs =
        .ok ⟨true, Value.integer 0, q + 1, st.kwargs⟩ := by
      unfold readToken
      simp [hpeek, nextChar, hget, hcond]
    have hadd : integer_add o 0 = o := by
      unfold integer_add
      rw [Int.add_zero]
      exact integer_wrap_representable hrep
    unfold promptStep
    rw [htok]
    simp only [hdrop, bindPositional_relative_origin E _ _ arg _ _ hidx, hfetch, if_true,
      applyRelative_integer E _ arg o 0 htype, hadd]

/-- C8 at the examples of the specification: the iteration at `~3` of
`heal 7 ~3` with `health = 50` binds 53; with `health = 10`, `~5` yields 15
and a bare `~` yields 10; with `health = 50`, `heal 7 ~3` yields the amount
53 and `heal 7 ~` the amount 50. -/
theorem promptStep_relative_integer_witness :
    promptStep asciiExtern exampleInterpreter healCommand "heal 7 ~3".data
        ⟨6, 1, [Value.integer 7], []⟩ =
      .ok ⟨9, 2, [Value.integer 7, Value.integer 53], []⟩ ∧
    parsePrompt asciiExtern exampleInterpreter10 "heal 7 ~5".data =
      some (.ok ⟨healCommand, [Value.integer 7, Value.integer 15], []⟩) ∧
    parsePrompt asciiExtern exampleInterpreter10 "heal 7 ~".data =
      some (.ok ⟨healCommand, [Value.integer 7, Value.integer 10], []⟩) ∧
    parsePrompt asciiExtern exampleInterpreter "heal 7 ~3".data =
      some (.ok ⟨healCommand, [Value.integer 7, Value.integer 53], []⟩) ∧
    parsePrompt asciiExtern exampleInterpreter "heal 7 ~".data =
      some (.ok ⟨healCommand, [Value.integer 7, Value.integer 50], []⟩) :=
  ⟨(promptStep_relative_integer asciiExtern exampleInterpreter healCommand "heal 7 ~3".data
      ⟨6, 1, [Value.integer 7], []⟩ 7
      ⟨"amount", ArgType.integer, true, Value.integer 10, Value.string "health", ""⟩
      "health" 50 (by decide) (by decide) (by decide) (by decide) (by decide)).1 3 9
      (by decide) (by decide) (by decide),
    by decide, by decide, by decide, by decide⟩

/-- C8 fails as stated: a tab is whitespace, and a bare `~` followed by a tab
does not bind the origin unchanged. In `heal 7 ~` followed by a tab and `5`,
with `health = 50`, the literal after the tab is read as the delta and 55 is
bound; with nothing after the tab parsing fails. -/
theorem promptStep_relative_integer_counterexample :
    asciiExtern.is_whitespace '\t' = true ∧
    "heal 7 ~\t5".data[8]? = some '\t' ∧
    promptStep asciiExtern exampleInterpreter healCommand "heal 7 ~\t5".data
        ⟨6, 1, [Value.integer 7], []⟩ =
      .ok ⟨10, 2, [Value.integer 7, Value.integer 55], []⟩ ∧
    parsePrompt asciiExtern exampleInterpreter "heal 7 ~\t5".data =
      some (.ok ⟨healCommand, [Value.integer 7, Value.integer 55], []⟩) ∧
    parsePrompt asciiExtern exampleInterpreter "heal 7 ~\t".data =
      some (.error (Failure.parsing_error 9 "unexpected end")) := by
  refine ⟨?_, ?_, ?_, ?_, ?_⟩ <;> decide

/-- C9: `applyRelative` with an origin that is None returns the delta itself,
whatever the argument; `fetchOrigin` returns a numeric declared origin as it
is, returns for a String origin the result of the lookup of that name in the
variable namespace, and returns None for every other declared origin (None,
Bool, list, map). -/
theorem applyRelative_none_fetchOrigin (E : Extern) (interpreter : CommandsInterpreter)
    (pos : Nat) (arg : Argument) (v : Value) :
    applyRelative E pos arg v Value.none = .ok v ∧
    (∀ i, fetchOrigin interpreter { arg with origin := Value.integer i } = Value.integer i) ∧
    (∀ x, fetchOrigin interpreter { arg with origin := Value.number x } = Value.number x) ∧
    (∀ s, fetchOrigin interpreter { arg with origin := Value.string s } = interpreter.resolve s) ∧
    fetchOrigin interpreter { arg with origin := Value.none } = Value.none ∧
    (∀ b, fetchOrigin interpreter { arg with origin := Value.bool b } = Value.none) ∧
    (∀ h, fetchOrigin interpreter { arg with origin := Value.list h } = Value.none) ∧
    (∀ h, fetchOrigin interpreter { arg with origin := Value.map h } = Value.none) := by
  simp [applyRelative, fetchOrigin, dynamic.index, dynamic.is_numeric]

/-- C10 fails on the code: on the positional path a `~`-prefixed value is
bound to a String slot (`say ~hello`) and to a Selector slot (`pick ~3`, with
the declared origin 5 added) without any error, while the keyword path
rejects the same marker (`say tag=~hello`) in `parseRelativeValue`. -/
theorem parsePrompt_relative_non_numeric :
    parsePrompt asciiExtern exampleInterpreter "say ~hello".data =
      some (.ok ⟨sayCommand, [Value.string "hello"], []⟩) ∧
    parsePrompt asciiExtern exampleInterpreter "pick ~3".data =
      some (.ok ⟨pickCommand, [Value.integer 8], []⟩) ∧
    parsePrompt asciiExtern exampleInterpreter "say tag=~hello".data =
      some (.error (Failure.parsing_error 8
        "'~' operator is only allowed for numeric arguments")) := by
  refine ⟨?_, ?_, ?_⟩ <;> decide

/-- C12 fails on the code: for the mandatory Integer slot `x` with the origin
`pos`, a variable that resolves to None, `move ~hello` returns a Prompt whose
positional list holds the String `hello`, which `typeCheck` rejects on that
slot; the keyword path checks the same value and fails (`move dy=~hello`). -/
theorem parsePrompt_relative_unchecked :
    parsePrompt asciiExtern relativeInterpreter "move ~hello".data =
      some (.ok ⟨moveCommand, [Value.string "hello"], []⟩) ∧
    typeCheck asciiExtern 11 ⟨"x", ArgType.integer, false, Value.none, Value.string "pos", ""⟩
        (Value.string "hello") =
      .error (Failure.parsing_error 11 "argument \"x\": integer expected, got string") ∧
    parsePrompt asciiExtern relativeInterpreter "move dy=~hello".data =
      some (.error (Failure.parsing_error 14 "argument \"dy\": integer expected, got string")) := by
  refine ⟨?_, ?_, ?_⟩ <;> decide

/-- C13 fails on the code: when the literal before `=` is a number, a Bool or
None, `std::get<std::string>(value)` throws `std::bad_variant_access`, which
is no parse error. -/
theorem parsePrompt_bad_variant_access :
    parsePrompt asciiExtern exampleInterpreter "give 5=3".data =
      some (.error Failure.bad_variant_access) ∧
    parsePrompt asciiExtern exampleInterpreter "give true=3".data =
      some (.error Failure.bad_variant_access) ∧
    parsePrompt asciiExtern exampleInterpreter "give none=3".data =
      some (.error Failure.bad_variant_access) := by
  refine ⟨?_, ?_, ?_⟩ <;> decide

/-- C14 fails on the code for `@`: the table maps `@` to Selector, and for
every scanner whose `is_identifier_start` does not hold of `@` a type
position that begins with `@` fails in `parseIdentifier` with
`identifier expected`, before the table is looked at. -/
theorem parseType_at_sign (E : Extern) (source : List Char) (pos q : Nat)
    (hpeek : peek E source pos = .ok ('@', q))
    (hstart : E.is_identifier_start '@' = false) :
    types "@" = some ArgType.selector ∧
    parseType E source pos = .error (Failure.parsing_error q "identifier expected") := by
  refine ⟨by decide, ?_⟩
  have h2 := peek_stable hpeek
  simp [parseType, hpeek, parseIdentifier, h2, hstart, error]

/-- C14 at `x:@` and `pick id:@`, which fail, next to `x:int`, which compiles. -/
theorem parseType_at_sign_witness :
    parseType asciiExtern "x:@".data 2 =
      .error (Failure.parsing_error 2 "identifier expected") ∧
    parseArgument asciiExtern "x:@".data 0 =
      some (.error (Failure.parsing_error 2 "identifier expected")) ∧
    parseScheme asciiExtern "pick id:@".data 3 =
      some (.error (Failure.parsing_error 8 "identifier expected")) ∧
    parseArgument asciiExtern "x:int".data 0 =
      some (.ok (⟨"x", ArgType.integer, false, Value.none, Value.none, ""⟩, 5)) :=
  ⟨(parseType_at_sign asciiExtern "x:@".data 2 2 (by decide) (by decide)).2,
    by decide, by decide, by decide⟩

/-- C15: for a scheme argument `name:type` followed by the modifiers `ms`, the
compiled Argument is optional exactly when one of them is an `=value`, its
default is the value of the last `=value` (None when there is none), its
origin is the value of the last `~value` (None when there is none), and its
enum spec is empty when its type is not `enumvalue`. -/
theorem parseArgument_modifiers (E : Extern) (source : List Char) (pos : Nat) (name : String)
    (p1 p2 : Nat) (type : ArgType) (p3 : Nat) (enumname : String) (p4 : Nat)
    (ms : List (Bool × Value)) (p5 pe : Nat)
    (hname : parseIdentifier E source pos false = .ok (name, p1))
    (hcolon : expect E source p1 ':' = .ok p2)
    (htype : parseType E source p2 = .ok (type, p3))
    (henum : (if type = ArgType.enumvalue then parseEnum E source p3 else .ok ("", p3)) =
      .ok (enumname, p4))
    (hmods : ModifiersTo E source p4 ms p5)
    (hend : (hasNext source p5 = false ∧ pe = p5) ∨
      (hasNext source p5 = true ∧ ∃ c, peek E source p5 = .ok (c, pe) ∧ c ≠ '=' ∧ c ≠ '~')) :
    parseArgument E source pos =
      some (.ok (⟨name, type, ms.any (fun m => m.1), lastValue true ms, lastValue false ms,
        if type = ArgType.enumvalue then enumname else ""⟩, pe)) := by
  have hn := modifiersTo_length hmods
  have hfuel : source.length + 1 = (source.length - ms.length) + 1 + ms.length := by omega
  have hname' : enumname = if type = ArgType.enumvalue then enumname else "" := by
    by_cases ht : type = ArgType.enumvalue
    · simp [ht]
    · simp only [ht, if_false] at henum ⊢
      injection henum with henum
      injection henum with h1 h2
      exact h1.symm
  unfold parseArgument
  simp only [hname, hcolon, htype, henum]
  rw [hfuel, parseModifiers_run hmods,
    parseModifiers_end _ _ rfl hend]
  simp only [Bool.false_or]
  rw [← hname']
  rfl

/-- C15 at `c:int=5 ~health=7`: optional, default 7, origin `health`. -/
theorem parseArgument_modifiers_witness :
    ModifiersTo asciiExtern "c:int=5 ~health=7".data 5
      [(true, Value.integer 5), (false, Value.string "health"), (true, Value.integer 7)] 17 ∧
    parseArgument asciiExtern "c:int=5 ~health=7".data 0 =
      some (.ok (⟨"c", ArgType.integer, true, Value.integer 7, Value.string "health", ""⟩, 17)) :=
  have hmods : ModifiersTo asciiExtern "c:int=5 ~health=7".data 5
      [(true, Value.integer 5), (false, Value.string "health"), (true, Value.integer 7)] 17 :=
    @ModifiersTo.cons asciiExtern "c:int=5 ~health=7".data 5 5 7 17 '=' (Value.integer 5) _
      (by decide) (by decide) (by decide) (by decide) (by decide)
      (@ModifiersTo.cons asciiExtern "c:int=5 ~health=7".data 7 8 15 17 '~' (Value.string "health") _
        (by decide) (by decide) (by decide) (by decide) (by decide)
        (@ModifiersTo.cons asciiExtern "c:int=5 ~health=7".data 15 15 17 17 '=' (Value.integer 7) _
          (by decide) (by decide) (by decide) (by decide) (by decide) (.nil 17)))
  ⟨hmods, parseArgument_modifiers asciiExtern "c:int=5 ~health=7".data 0 "c" 1 2
    ArgType.integer 5 "" 5 _ 17 17 (by decide) (by decide) (by decide) (by decide) hmods
    (Or.inl ⟨by decide, rfl⟩)⟩

/-- C16 fails on the code for the position: an inline set whose body, as read
from its first character that is not whitespace up to `]`, holds a space
fails with `use '|' as separator, not a space`, and the position of that
error is one less than the index `sp` of the first space of the body. -/
theorem parseEnum_space_position (E : Extern) (source : List Char) (pos q s : Nat) (c : Char)
    (hopen : peek E source pos = .ok ('[', q))
    (hfirst : peek E source (q + 1) = .ok (c, s))
    (hc : c ≠ ']')
    (hspace : ' ' ∈ (source.drop s).takeWhile (fun x => x != ']')) :
    ∃ sp, source[sp]? = some ' ' ∧ (∀ j, s ≤ j → j < sp → source[j]? ≠ some ' ') ∧ 0 < sp ∧
      parseEnum E source pos =
        .error (Failure.parsing_error (sp - 1) "use '|' as separator, not a space") := by
  obtain ⟨_, hgetq, _⟩ := peek_ok hopen
  obtain ⟨hs, _, _⟩ := peek_ok hfirst
  set body := (source.drop s).takeWhile (fun x => x != ']') with hbody
  set i := (body.takeWhile (fun x => x != ' ')).length with hi
  have hex : ∃ x ∈ body, (fun x => x != ' ') x = false := ⟨' ', hspace, by simp⟩
  obtain ⟨y, hy, hpy⟩ := takeWhile_first_fail (fun x => x != ' ') body hex
  have hyeq : y = ' ' := by simpa using hpy
  subst hyeq
  have hilt : i < body.length := (List.getElem?_eq_some_iff.mp hy).1
  have hsrc : source[s + i]? = some ' ' := by
    have := (takeWhile_getElem (fun x => x != ']') (source.drop s) i ' ' hy).1
    rwa [List.getElem?_drop] at this
  refine ⟨s + i, hsrc, ?_, by omega, ?_⟩
  · intro j hj1 hj2 hcontra
    have hjlt : j - s < i := by omega
    have hj : j - s < (body.takeWhile (fun x => x != ' ')).length := hjlt
    have hsome : ((body.takeWhile (fun x => x != ' ')))[j - s]? =
        some ((body.takeWhile (fun x => x != ' '))[j - s]) := List.getElem?_eq_getElem hj
    obtain ⟨h1, h2⟩ := takeWhile_getElem (fun x => x != ' ') body (j - s) _ hsome
    have h3 := (takeWhile_getElem (fun x => x != ']') (source.drop s) (j - s) _ h1).1
    rw [List.getElem?_drop] at h3
    have hjs : s + (j - s) = j := by omega
    rw [hjs, hcontra] at h3
    injection h3 with h3
    rw [← h3] at h2
    simp at h2
  · have hcb : (c == ']') = false := by simpa using hc
    have hdata : ("|" ++ String.mk body ++ "|").data = '|' :: (body ++ ['|']) := by simp
    have hmem : ' ' ∈ ("|" ++ String.mk body ++ "|").data := by
      rw [hdata]; simp [hspace]
    have hoff : (("|" ++ String.mk body ++ "|").data.takeWhile (fun x => x != ' ')).length =
        i + 1 := by
      rw [hdata, List.takeWhile_cons_of_pos (by decide), List.length_cons,
        takeWhile_append_fail _ _ _ hex]
    have hlen : ("|" ++ String.mk body ++ "|").length = body.length + 2 := by
      rw [String.length_append, String.length_append]
      show 1 + body.length + 1 = _
      omega
    have hback : goBack (s + body.length) (body.length + 2 - (i + 1)) = .ok (s + i - 1) := by
      unfold goBack
      have : ¬ (s + body.length < body.length + 2 - (i + 1)) := by omega
      simp only [this, if_false]
      congr 1
      omega
    simp only [parseEnum, hopen, nextChar, hgetq, hfirst, hcb, readUntil, ← hbody]
    simp only [beq_self_eq_true, if_true, Bool.false_eq_true, if_false, hmem, hoff, hlen, hback,
      error]

/-- C16 at `[a b]`: the space is at index 2, the error is at 1; in `c:[a b]`
the space is at index 4, the error is at 3. -/
theorem parseEnum_space_position_witness :
    parseEnum asciiExtern "[a b]".data 0 =
      .error (Failure.parsing_error 1 "use '|' as separator, not a space") ∧
    "[a b]".data[2]? = some ' ' ∧
    parseArgument asciiExtern "c:[a b]".data 0 =
      some (.error (Failure.parsing_error 3 "use '|' as separator, not a space")) ∧
    ∃ sp, "[a b]".data[sp]? = some ' ' ∧ (∀ j, 1 ≤ j → j < sp → "[a b]".data[j]? ≠ some ' ') ∧
      0 < sp ∧ parseEnum asciiExtern "[a b]".data 0 =
        .error (Failure.parsing_error (sp - 1) "use '|' as separator, not a space") :=
  ⟨by decide, by decide, by decide,
    parseEnum_space_position asciiExtern "[a b]".data 0 0 1 'a' (by decide) (by decide)
      (by decide) (by decide)⟩

/-- C17: when the scheme compiles to a command, `add` succeeds, `get` of the
name of the command returns that command afterwards and `get` of every other
name returns what it did before; when the scheme does not compile, `add`
fails with the error of the compiler and leaves the repository as it was;
`get` of a name that no entry of the repository has returns absent, as does
every `get` on the empty repository. -/
theorem repository_add_get (E : Extern) (repo : CommandsRepository) (scheme : String)
    (executor : Nat) :
    (∀ command, Command.create E scheme executor = some (.ok command) →
      ∃ repo', repo.add E scheme executor = some (.ok (), repo') ∧
        repo'.get command.name = some command ∧
        ∀ m, m ≠ command.name → repo'.get m = repo.get m) ∧
    (∀ e, Command.create E scheme executor = some (.error e) →
      repo.add E scheme executor = some (.error e, repo)) ∧
    (∀ m, (∀ entry ∈ repo.commands, entry.1 ≠ m) → repo.get m = none) ∧
    (∀ m, (⟨[]⟩ : CommandsRepository).get m = none) := by
  refine ⟨?_, ?_, ?_, ?_⟩
  · intro command h
    refine ⟨⟨insert_or_assign repo.commands command.name command⟩, ?_, ?_, ?_⟩
    · simp [CommandsRepository.add, h]
    · exact lookup_insert_or_assign_self _ _ _
    · intro m hm
      exact lookup_insert_or_assign_other _ _ _ _ hm
  · intro e h
    simp [CommandsRepository.add, h]
  · intro m h
    exact lookup_absent _ _ h
  · intro m
    rfl

/-- C17 at the example repository: `mark x:int` replaces the command `mark`;
`mark x:float` does not compile and leaves the repository as it was. -/
theorem repository_add_get_witness :
    (∃ repo', exampleInterpreter.repository.add asciiExtern "mark x:int" 9 = some (.ok (), repo') ∧
      repo'.get "mark" =
        some ⟨"mark", [⟨"x", ArgType.integer, false, Value.none, Value.none, ""⟩], [], 9⟩ ∧
      ∀ m, m ≠ "mark" → repo'.get m = exampleInterpreter.repository.get m) ∧
    exampleInterpreter.repository.add asciiExtern "mark x:float" 9 =
      some (.error (Failure.parsing_error 12 "unknown type \"float\""),
        exampleInterpreter.repository) :=
  ⟨(repository_add_get asciiExtern exampleInterpreter.repository "mark x:int" 9).1
      ⟨"mark", [⟨"x", ArgType.integer, false, Value.none, Value.none, ""⟩], [], 9⟩ (by decide),
    (repository_add_get asciiExtern exampleInterpreter.repository "mark x:float" 9).2.1
      (Failure.parsing_error 12 "unknown type \"float\"") (by decide)⟩

/-- C18: when the leading identifier of the prompt is no registered command
name, `parsePrompt` fails with `unknown command` and the quoted name, at the
cursor after the name, whatever follows; no Prompt is returned. -/
theorem parsePrompt_unknown_command (E : Extern) (interpreter : CommandsInterpreter)
    (source : List Char) (name : String) (pos : Nat)
    (hname : parseIdentifier E source 0 true = .ok (name, pos))
    (hget : interpreter.repository.get name = none) :
    parsePrompt E interpreter source =
      some (.error (Failure.parsing_error pos ("unknown command " ++ E.quote name))) := by
  simp [parsePrompt, parsePromptFuel, hname, hget, error]

/-- C18 at `frobnicate 1 ~ x=`. -/
theorem parsePrompt_unknown_command_witness :
    parsePrompt asciiExtern exampleInterpreter "frobnicate 1 ~ x=".data =
      some (.error (Failure.parsing_error 10 "unknown command \"frobnicate\"")) :=
  parsePrompt_unknown_command asciiExtern exampleInterpreter "frobnicate 1 ~ x=".data
    "frobnicate" 10 (by decide) (by decide)

/-- C19, as the code has it: for an argument whose type position is `[s]`, with or without the
keyword `enum` before it, and a body `s` that is not empty, holds no space
and no `]` and does not begin with a character the scanner skips as
whitespace, `parseArgument` yields the type `enumvalue` and the enum spec
`"|" + s + "|"`; when `]` is the first character after `[`, it fails with
`empty enumeration is not allowed`. -/
theorem parseArgument_inline_enum (E : Extern) (source : List Char) (pos : Nat) (name : String)
    (p1 p2 p3 q : Nat)
    (hname : parseIdentifier E source pos false = .ok (name, p1))
    (hcolon : expect E source p1 ':' = .ok p2)
    (hform : (peek E source p2 = .ok ('[', q) ∧ p3 = q) ∨
      (∃ c q0, peek E source p2 = .ok (c, q0) ∧ c ≠ '[' ∧
        parseIdentifier E source q0 false = .ok ("enum", p3) ∧
        peek E source p3 = .ok ('[', q))) :
    (∀ (body rest : List Char) (m : Modifiers),
      source.drop (q + 1) = body ++ ']' :: rest → body ≠ [] → ' ' ∉ body → ']' ∉ body →
      (∀ c ∈ body.head?, E.is_whitespace c = false) →
      parseModifiers E source (source.length + 1)
          ⟨false, Value.none, Value.none, q + 1 + body.length + 1⟩ = some (.ok m) →
      parseArgument E source pos =
        some (.ok (⟨name, ArgType.enumvalue, m.optional, m.def, m.origin,
          "|" ++ String.mk body ++ "|"⟩, m.pos))) ∧
    (∀ q2, peek E source (q + 1) = .ok (']', q2) →
      parseArgument E source pos =
        some (.error (Failure.parsing_error q2 "empty enumeration is not allowed"))) := by
  obtain ⟨htype, hopen⟩ := parseType_inline_or_keyword hform
  constructor
  · intro body rest m hbody hne hsp hbr hws hmods
    have henum := parseEnum_inline hopen hbody hne hsp hbr hws
    simp [parseArgument, hname, hcolon, htype, henum, hmods]
  · intro q2 hclose
    obtain ⟨_, hgetq, _⟩ := peek_ok hopen
    have henum : parseEnum E source p3 =
        .error (Failure.parsing_error q2 "empty enumeration is not allowed") := by
      simp [parseEnum, hopen, nextChar, hgetq, hclose, error]
    simp [parseArgument, hname, hcolon, htype, henum]

/-- C19 at `mode:[a|b|c]`, `mode:enum[a|b|c]=a` and `mode:[]`. -/
theorem parseArgument_inline_enum_witness :
    parseArgument asciiExtern "mode:[a|b|c]".data 0 =
      some (.ok (⟨"mode", ArgType.enumvalue, false, Value.none, Value.none, "|a|b|c|"⟩, 12)) ∧
    parseArgument asciiExtern "mode:enum[a|b|c]=a".data 0 =
      some (.ok (⟨"mode", ArgType.enumvalue, true, Value.string "a", Value.none, "|a|b|c|"⟩, 18)) ∧
    parseArgument asciiExtern "mode:[]".data 0 =
      some (.error (Failure.parsing_error 6 "empty enumeration is not allowed")) :=
  ⟨(parseArgument_inline_enum asciiExtern "mode:[a|b|c]".data 0 "mode" 4 5 5 5
      (by decide) (by decide) (Or.inl ⟨by decide, rfl⟩)).1
      "a|b|c".data [] ⟨false, Value.none, Value.none, 12⟩
      (by decide) (by decide) (by decide) (by decide) (by decide) (by decide),
    (parseArgument_inline_enum asciiExtern "mode:enum[a|b|c]=a".data 0 "mode" 4 5 9 9
      (by decide) (by decide)
      (Or.inr ⟨'e', 5, by decide, by decide, by decide, by decide⟩)).1
      "a|b|c".data "=a".data ⟨true, Value.string "a", Value.none, 18⟩
      (by decide) (by decide) (by decide) (by decide) (by decide) (by decide),
    (parseArgument_inline_enum asciiExtern "mode:[]".data 0 "mode" 4 5 5 5
      (by decide) (by decide) (Or.inl ⟨by decide, rfl⟩)).2 6 (by decide)⟩

/-- C19 fails as stated: the body of `m:[` tab `a|b]` is not empty and holds
no space and no `]`, and the enum spec compiled from it is `|a|b|`, without
the tab that `peek()` skips before the body is read. -/
theorem parseArgument_inline_enum_counterexample :
    "\ta|b".data ≠ [] ∧ ' ' ∉ "\ta|b".data ∧ ']' ∉ "\ta|b".data ∧
    "m:[\ta|b]".data.drop 3 = "\ta|b".data ++ ']' :: [] ∧
    parseArgument asciiExtern "m:[\ta|b]".data 0 =
      some (.ok (⟨"m", ArgType.enumvalue, false, Value.none, Value.none, "|a|b|"⟩, 8)) ∧
    "|a|b|" ≠ "|" ++ "\ta|b" ++ "|" := by
  refine ⟨?_, ?_, ?_, ?_, ?_, ?_⟩ <;> decide

/-- C20: for the named form `$name` of an enumeration, and a scanner for which
`|` is no identifier character, `parseEnum` succeeds, the enum spec it
returns begins with `$` and holds no `|`, so `typeCheck` on an `enumvalue`
argument with that spec never returns true and rejects every String with
`invalid enumeration value`. -/
theorem parseEnum_named (E : Extern) (source : List Char) (pos q : Nat)
    (hpeek : peek E source pos = .ok ('$', q))
    (hbar : E.is_identifier_part '|' = false) :
    ∃ spec pos', parseEnum E source pos = .ok (spec, pos') ∧
      spec.data.head? = some '$' ∧ '|' ∉ spec.data ∧
      ∀ (E' : Extern) (p : Nat) (name : String) (optional : Bool) (d origin v : Value) (s : String),
        typeCheck E' p ⟨name, ArgType.enumvalue, optional, d, origin, spec⟩ v ≠ .ok true ∧
        typeCheck E' p ⟨name, ArgType.enumvalue, optional, d, origin, spec⟩ (Value.string s) =
          .error (Failure.parsing_error p
            ("argument " ++ E'.quote name ++ ": invalid enumeration value")) := by
  have h2 := peek_stable hpeek
  obtain ⟨_, hget, _⟩ := peek_ok hpeek
  have hdrop := drop_getElem_cons hget
  have hpart : is_cmd_identifier_part E '$' false = true := by simp [is_cmd_identifier_part]
  refine ⟨String.mk ((source.drop q).takeWhile (fun x => is_cmd_identifier_part E x false)),
    q + ((source.drop q).takeWhile (fun x => is_cmd_identifier_part E x false)).length, ?_, ?_, ?_, ?_⟩
  · simp [parseEnum, hpeek, expect, h2, goBack, parseIdentifier]
  · simp [hdrop, List.takeWhile_cons, hpart]
  · intro hin
    have := List.mem_takeWhile_imp hin
    simp [is_cmd_identifier_part, hbar] at this
  · intro E' p name optional d origin v s
    have hno : '|' ∉ (String.mk ((source.drop q).takeWhile
        (fun x => is_cmd_identifier_part E x false))).data := by
      intro hin
      have := List.mem_takeWhile_imp hin
      simp [is_cmd_identifier_part, hbar] at this
    constructor
    · cases v <;> cases optional <;>
        simp [typeCheck, contains_no_bar _ _ hno]
    · simp [typeCheck, contains_no_bar _ _ hno, error]

/-- C20 at `$colors` and `c:enum $colors`. -/
theorem parseEnum_named_witness :
    parseEnum asciiExtern "$colors".data 0 = .ok ("$colors", 7) ∧
    parseArgument asciiExtern "c:enum $colors".data 0 =
      some (.ok (⟨"c", ArgType.enumvalue, false, Value.none, Value.none, "$colors"⟩, 14)) ∧
    ∃ spec pos', parseEnum asciiExtern "$colors".data 0 = .ok (spec, pos') ∧
      spec.data.head? = some '$' ∧ '|' ∉ spec.data ∧
      ∀ (E' : Extern) (p : Nat) (name : String) (optional : Bool) (d origin v : Value) (s : String),
        typeCheck E' p ⟨name, ArgType.enumvalue, optional, d, origin, spec⟩ v ≠ .ok true ∧
        typeCheck E' p ⟨name, ArgType.enumvalue, optional, d, origin, spec⟩ (Value.string s) =
          .error (Failure.parsing_error p
            ("argument " ++ E'.quote name ++ ": invalid enumeration value")) :=
  ⟨by decide, by decide, parseEnum_named asciiExtern "$colors".data 0 0 (by decide) (by decide)⟩

/-- C21: on the keyword path, for a literal `key` followed by `=` and a value
(plain or `~`-prefixed) whose kind does not match the declared type of the
keyword slot `key`. When the slot is optional, `typeCheck` returns false,
`performKeywordArg` raises no error and returns the value unchanged, and the
loop body stores it under `key` in the keyword map; when the slot is
mandatory, `performKeywordArg` and the loop body fail with the type error of
`typeCheck`. -/
theorem performKeywordArg_discards_skip (E : Extern) (interpreter : CommandsInterpreter)
    (command : Command) (source : List Char) (kwargs : List (String × Value))
    (p q0 pk pos q q' : Nat) (c0 c : Char) (key : String) (arg : Argument) (value : Value)
    (hstart : peek E source p = .ok (c0, q0))
    (hc0 : c0 ≠ '~') (hc0' : c0 ≠ ' ')
    (hkey : parseValue E source q0 = .ok (Value.string key, pk))
    (hmore : hasNext source pk = true)
    (heq : peek E source pk = .ok ('=', pos))
    (harg : command.getKeywordArgument key = some arg)
    (hpeek : peek E source (pos + 1) = .ok (c, q))
    (hvalue : (if c == '~' then parseRelativeValue E interpreter source q arg
      else parseValue E source q) = .ok (value, q'))
    (hkind : kindMatches arg.type value = false) :
    (arg.optional = true →
      typeCheck E q' arg value = .ok false ∧
      performKeywordArg E interpreter command source pos key = .ok (value, q') ∧
      readToken E interpreter command source p kwargs =
        .ok ⟨false, Value.string key, q', Map.put kwargs key value⟩ ∧
      (Map.put kwargs key value).lookup key = some value) ∧
    (arg.optional = false →
      performKeywordArg E interpreter command source pos key =
        .error (typeError E q' arg.name (expectedName arg.type) value) ∧
      readToken E interpreter command source p kwargs =
        .error (typeError E q' arg.name (expectedName arg.type) value)) := by
  obtain ⟨_, hget0, hnext0⟩ := peek_ok hstart
  obtain ⟨_, hgeteq, _⟩ := peek_ok heq
  have hrel : (c0 == '~') = false := by simpa using hc0
  have hne : (source[q0]? != some ' ') = true := by rw [hget0]; simpa using hc0'
  have hread : ∀ r, performKeywordArg E interpreter command source pos key = r →
      readToken E interpreter command source p kwargs =
        (match r with
          | .error e => .error e
          | .ok (v, pos) => .ok ⟨false, Value.string key, pos, Map.put kwargs key v⟩) := by
    intro r hr
    unfold readToken
    simp only [hstart, hrel, Bool.false_eq_true, if_false, hnext0, hne, Bool.and_self, if_true,
      hkey, Bool.not_false, Bool.true_and, hmore, heq, beq_self_eq_true, hr]
  constructor
  · intro hopt
    have htc := typeCheck_skips E q' arg value hopt hkind
    have hperf : performKeywordArg E interpreter command source pos key = .ok (value, q') := by
      unfold performKeywordArg
      simp only [harg, nextChar, hgeteq, hpeek, hvalue, htc]
    exact ⟨htc, hperf, by rw [hread _ hperf], lookup_put_self kwargs key value⟩
  · intro hopt
    have htc := typeCheck_mandatory_mismatch E q' arg value hopt hkind
    have hperf : performKeywordArg E interpreter command source pos key =
        .error (typeError E q' arg.name (expectedName arg.type) value) := by
      unfold performKeywordArg
      simp only [harg, nextChar, hgeteq, hpeek, hvalue, htc]
    exact ⟨hperf, by rw [hread _ hperf]⟩

/-- C21 at `echo times=abc`, where `times` is an optional Integer keyword
slot: the String `abc` is stored under `times`; and at `say count=abc`, where
`count` is a mandatory Integer keyword slot: a type error. -/
theorem performKeywordArg_discards_skip_witness :
    (performKeywordArg asciiExtern keywordInterpreter echoCommand "echo times=abc".data 10 "times" =
        .ok (Value.string "abc", 14) ∧
      readToken asciiExtern keywordInterpreter echoCommand "echo times=abc".data 4 [] =
        .ok ⟨false, Value.string "times", 14, [("times", Value.string "abc")]⟩) ∧
    performKeywordArg asciiExtern exampleInterpreter sayCommand "say count=abc".data 9 "count" =
      .error (Failure.parsing_error 13 "argument \"count\": integer expected, got string") ∧
    parsePrompt asciiExtern keywordInterpreter "echo times=abc".data =
      some (.ok ⟨echoCommand, [Value.string "times"], [("times", Value.string "abc")]⟩) ∧
    parsePrompt asciiExtern exampleInterpreter "say count=abc".data =
      some (.error (Failure.parsing_error 13
        "argument \"count\": integer expected, got string")) :=
  have h1 := (performKeywordArg_discards_skip asciiExtern keywordInterpreter echoCommand
    "echo times=abc".data [] 4 5 10 10 11 14 't' 'a' "times"
    ⟨"times", ArgType.integer, true, Value.integer 1, Value.none, ""⟩ (Value.string "abc")
    (by decide) (by decide) (by decide) (by decide) (by decide) (by decide) (by decide)
    (by decide) (by decide) (by decide)).1 (by decide)
  have h2 := (performKeywordArg_discards_skip asciiExtern exampleInterpreter sayCommand
    "say count=abc".data [] 3 4 9 9 10 13 'c' 'a' "count"
    ⟨"count", ArgType.integer, false, Value.none, Value.none, ""⟩ (Value.string "abc")
    (by decide) (by decide) (by decide) (by decide) (by decide) (by decide) (by decide)
    (by decide) (by decide) (by decide)).2 (by decide)
  ⟨⟨h1.2.1, h1.2.2.1⟩, h2.1, by decide, by decide⟩

end cmd
